import Mathlib

/-!
# Verification of the gossipy Maelstrom node implementations

A shallow embedding of the gossipy repository (a Rust library plus workload
handlers for the Maelstrom distributed-systems workbench):

* `src/lib.rs` — the node runtime (`Node::new`, `new_msg_id`, `reply`, `send_to`);
* `src/bin/broadcast.rs` — multi-node anti-entropy broadcast;
* `src/bin/g-counter.rs` — grow-only counter over the `seq-kv` service;
* `src/bin/kafka-multi-node.rs` — multi-key Kafka-style log over `lin-kv`.

Rust `HashMap`s are modelled as association lists with `fmFind` / `fmInsert`
(replace semantics) / `fmErase` (remove the binding); Rust `HashSet<isize>` is
modelled as `Finset Int`.  Handler panics (`expect`, `unwrap`) and `bail!`
return `Except.error`; outputs written to stdout before a failure are kept.
Machine integers (`usize`, `u64`, `u16`) are modelled as `Nat` (no arithmetic
in the sources can overflow under the workloads, and none of the verified
properties depends on wrap-around).
-/

namespace Gossipy

/-! ## Association-list maps (model of Rust `HashMap`) -/

/-- `HashMap::get`: find the value bound to key `k`. -/
def fmFind {κ α : Type} [DecidableEq κ] : List (κ × α) → κ → Option α
  | [], _ => none
  | (k₀, v₀) :: t, k => if k₀ = k then some v₀ else fmFind t k

/-- `HashMap::insert`: replace the binding of `k` if present, else append it. -/
def fmInsert {κ α : Type} [DecidableEq κ] : List (κ × α) → κ → α → List (κ × α)
  | [], k, v => [(k, v)]
  | (k₀, v₀) :: t, k, v =>
      if k₀ = k then (k, v) :: t else (k₀, v₀) :: fmInsert t k v

/-- `HashMap::remove`: drop the first binding of `k`. -/
def fmErase {κ α : Type} [DecidableEq κ] : List (κ × α) → κ → List (κ × α)
  | [], _ => []
  | (k₀, v₀) :: t, k => if k₀ = k then t else (k₀, v₀) :: fmErase t k

/-- `HashMap::entry(k).and_modify(f)`: apply `f` to the binding of `k` when
present, do nothing otherwise. -/
def fmModify {κ α : Type} [DecidableEq κ] : List (κ × α) → κ → (α → α) → List (κ × α)
  | [], _, _ => []
  | (k₀, v₀) :: t, k, f =>
      if k₀ = k then (k₀, f v₀) :: t else (k₀, v₀) :: fmModify t k f

/-- Keys of an association list. -/
def fmKeys {κ α : Type} (l : List (κ × α)) : List κ := l.map Prod.fst

/-- `HashSet::insert` on a list-modelled set of strings. -/
def setInsert (l : List String) (k : String) : List String :=
  if k ∈ l then l else k :: l

instance {ε α : Type} [DecidableEq ε] [DecidableEq α] : DecidableEq (Except ε α) :=
  fun x y =>
    match x, y with
    | .error a, .error b =>
        if h : a = b then isTrue (by rw [h]) else
          isFalse (by intro he; cases he; exact h rfl)
    | .error _, .ok _ => isFalse (by intro he; cases he)
    | .ok _, .error _ => isFalse (by intro he; cases he)
    | .ok a, .ok b =>
        if h : a = b then isTrue (by rw [h]) else
          isFalse (by intro he; cases he; exact h rfl)

/-! ## Broadcast handler (`src/bin/broadcast.rs`) -/

/-- The `Payload` enum of `broadcast.rs`. -/
inductive BPayload : Type
  | Broadcast (message : Int)
  | BroadcastOk
  | Read
  | ReadOk (messages : Finset Int)
  | Topology (topology : List (String × List String))
  | TopologyOk
  | Gossip (hav : Finset Int)
  | GossipOk (hav : Finset Int)
deriving DecidableEq

/-- The `Command` enum of `broadcast.rs`. -/
inductive BCommand : Type
  | SendGossip
deriving DecidableEq

/-- An incoming envelope as seen by the broadcast handler (fields of
`Message<Payload>` that the handler reads). -/
structure BMsg where
  src : String
  payload : BPayload
deriving DecidableEq

/-- An outbound envelope produced by the broadcast handler.  The fresh
`msg_id` is allocated by the runtime (`Node`), which is modelled separately;
only destination and payload are decided by the handler. -/
structure BOut where
  dst : String
  payload : BPayload
deriving DecidableEq

/-- The `BroadcastHandler` struct. -/
structure BState where
  messages : Finset Int
  topology : List (String × List String)
  neighbours : List String
  others_know : List (String × Finset Int)
deriving DecidableEq

/-- The handler state built in `main`: empty sets, `others_know` preallocated
with one empty set per node of the cluster. -/
def BState.init (node_ids : List String) : BState :=
  { messages := ∅
    topology := []
    neighbours := []
    others_know := node_ids.map fun id => (id, ∅) }

/-- `BroadcastHandler::handle`.  `selfId` is `node.id()`. -/
def bHandle (selfId : String) (s : BState) (msg : BMsg) :
    Except String (BState × List BOut) :=
  match msg.payload with
  | .Broadcast message =>
      let s := { s with messages := insert message s.messages }
      .ok (s, [⟨msg.src, .BroadcastOk⟩])
  | .Gossip hav =>
      let s := { s with messages := s.messages ∪ hav }
      match fmFind s.others_know msg.src with
      | none => .error "message from unknown node in the cluster"
      | some known =>
          let s := { s with others_know := fmInsert s.others_know msg.src (known ∪ hav) }
          .ok (s, [⟨msg.src, .GossipOk hav⟩])
  | .Read => .ok (s, [⟨msg.src, .ReadOk s.messages⟩])
  | .ReadOk messages =>
      .ok ({ s with others_know := fmInsert s.others_know msg.src messages }, [])
  | .Topology topology =>
      let s := { s with topology := topology }
      match fmFind s.topology selfId with
      | none => .error "our node must be included in topology map"
      | some ns => .ok ({ s with neighbours := ns }, [⟨msg.src, .TopologyOk⟩])
  | .BroadcastOk => .ok (s, [])
  | .TopologyOk => .ok (s, [])
  | .GossipOk hav =>
      match fmFind s.others_know msg.src with
      | none => .error "message from unknown node in the cluster"
      | some known =>
          .ok ({ s with others_know := fmInsert s.others_know msg.src (known ∪ hav) }, [])

/-- The loop body of `BroadcastHandler::handle_command` for one neighbour. -/
def bGossipTo (s : BState) (neighbour : String) : List BOut :=
  let weKnow : Finset Int :=
    match fmFind s.others_know neighbour with
    | some neighboursKnow => s.messages.filter fun m => m ∉ neighboursKnow
    | none => ∅
  if weKnow = ∅ then [] else [⟨neighbour, .Gossip weKnow⟩]

/-- `BroadcastHandler::handle_command` (command `SendGossip`): the state is
not mutated; gossip messages are sent to neighbours that lack something. -/
def bHandleCommand (s : BState) (_cmd : BCommand) :
    Except String (BState × List BOut) :=
  .ok (s, s.neighbours.flatMap (bGossipTo s))

/-- One step of the broadcast handler: an incoming message or a command. -/
inductive BStep : Type
  | msg (m : BMsg)
  | cmd (c : BCommand)
deriving DecidableEq

/-- Dispatch of one event, as the runtime's event loop does. -/
def bStep (selfId : String) (s : BState) : BStep → Except String (BState × List BOut)
  | .msg m => bHandle selfId s m
  | .cmd c => bHandleCommand s c

/-- States of the broadcast handler reachable from the initial state by
handled events. -/
inductive BReachable (selfId : String) (node_ids : List String) : BState → Prop
  | init : BReachable selfId node_ids (BState.init node_ids)
  | step {s s' : BState} {st : BStep} {outs : List BOut} :
      BReachable selfId node_ids s → bStep selfId s st = .ok (s', outs) →
      BReachable selfId node_ids s'

/-- `others_know[p]`, defaulting to the empty set for absent peers. -/
def oKnow (s : BState) (p : String) : Finset Int :=
  (fmFind s.others_know p).getD ∅

/-! ## Constants of `gossipy::kv_store` (`src/lib.rs`) -/

def SEQ_KV_SERVICE_ID : String := "seq-kv"

def LIN_KV_SERVICE_ID : String := "lin-kv"

def ERROR_KEY_DOES_NOT_EXIST : Nat := 20

def ERROR_PRECONDITION_FAILED : Nat := 22

/-! ## Kafka-style log handler (`src/bin/kafka-multi-node.rs`) -/

namespace Kafka

def NUM_POLLED_MESSAGES : Nat := 3

/-- The `Payload` enum of `kafka-multi-node.rs`. -/
inductive Payload : Type
  | Send (key : String) (msg : Nat)
  | SendOk (offset : Nat)
  | Poll (offsets : List (String × Nat))
  | PollOk (msgs : List (String × List (Nat × Nat)))
  | CommitOffsets (offsets : List (String × Nat))
  | CommitOffsetsOk
  | ListCommittedOffsets (keys : List String)
  | ListCommittedOffsetsOk (offsets : List (String × Nat))
  | ReadOk (value : Nat)
  | CasOk
  | WriteOk
  | Error (code : Nat) (text : String)
deriving DecidableEq

/-- The `KvStorePayload` enum (`from` and `to` are Lean keywords, hence `from_`, `to_`). -/
inductive KvStorePayload : Type
  | Write (key : String) (value : Nat)
  | Read (key : String)
  | Cas (key : String) (from_ : Nat) (to_ : Nat) (create_if_not_exists : Bool)
deriving DecidableEq

/-- `SendEntry`. -/
structure SendEntry where
  orig_msg_id : Nat
  orig_msg_src : String
  key : String
  offset : Nat
  msg : Nat
deriving DecidableEq

/-- `PollEntry`. -/
structure PollEntry where
  orig_msg_id : Nat
  orig_msg_src : String
  requested_key_offsets : List (String × Nat)
  key : String
  offset : Nat
deriving DecidableEq

/-- `PolledMessages`. -/
structure PolledMessages where
  messages : List (String × List (Nat × Nat))
  requested_keys : List String
  completed_keys : List String
deriving DecidableEq

/-- `PolledMessages::all_completed`. -/
def PolledMessages.all_completed (pm : PolledMessages) : Bool :=
  pm.requested_keys.length == pm.completed_keys.length

/-- `CommitOffsetEntry`. -/
structure CommitOffsetEntry where
  orig_msg_id : Nat
  orig_msg_src : String
  key : String
  requested_keys_count : Nat
deriving DecidableEq

/-- `CommittedOffsets`. -/
structure CommittedOffsets where
  offsets : List (String × Nat)
  requested_keys : List String
deriving DecidableEq

/-- `CommittedOffsets::all_completed`. -/
def CommittedOffsets.all_completed (c : CommittedOffsets) : Bool :=
  c.requested_keys.length == c.offsets.length

/-- The `KafkaLog` handler struct.  `nextId` is the `Node` `msg_id` counter
that `send_to` and `reply` consume (the handler owns the only `Node` handle
it uses, so the counter is part of the handler's evolving state here). -/
structure KafkaLog where
  nextId : Nat
  send_msg_keys : List (Nat × SendEntry)
  offset_reads : List (Nat × String)
  offset_updates : List (Nat × (String × Nat))
  poll_msg_keys : List (Nat × PollEntry)
  polled_messages : List (String × PolledMessages)
  commit_msg_keys : List (Nat × CommitOffsetEntry)
  committed_offset_reads : List (Nat × CommitOffsetEntry)
  committed_offsets_written : List (String × Nat)
  list_committed_offsets : List (String × CommittedOffsets)
deriving DecidableEq

/-- `KafkaLog::default()` with the node counter at `n` (after the init
handshake the counter is `2`, the `init_ok` reply having used `1`). -/
def KafkaLog.empty (n : Nat) : KafkaLog :=
  { nextId := n
    send_msg_keys := []
    offset_reads := []
    offset_updates := []
    poll_msg_keys := []
    polled_messages := []
    commit_msg_keys := []
    committed_offset_reads := []
    committed_offsets_written := []
    list_committed_offsets := [] }

/-- An outbound payload: either a KV-store request or a client-facing reply. -/
inductive OutPayload : Type
  | kv (p : KvStorePayload)
  | client (p : Payload)
deriving DecidableEq

/-- An outbound envelope (the node fills `src` with its own id). -/
structure OutMsg where
  dst : String
  msg_id : Nat
  in_reply_to : Option Nat
  payload : OutPayload
deriving DecidableEq

/-- An incoming envelope as seen by the kafka handler. -/
structure KMsg where
  src : String
  body_id : Option Nat
  in_reply_to : Option Nat
  payload : Payload
deriving DecidableEq

/-- `KafkaLog::logged_msg_key`. -/
def logged_msg_key (key : String) (offset : Nat) : String :=
  "entry-" ++ key ++ "-" ++ toString offset

/-- `KafkaLog::offset_key` (named `offsetKey` because `offset_key` is also a
local variable name in the source). -/
def offsetKey (key : String) : String := "offset-" ++ key

/-- `KafkaLog::committed_offset_key`. -/
def committed_offset_key (key : String) : String := "committed-offset-" ++ key

/-- The `"{orig_src}-{orig_msg_id}"` aggregator key. -/
def aggKey (src : String) (id : Nat) : String := src ++ "-" ++ toString id

/-- `KafkaLog::send_to_lin_kv`: allocates the next `msg_id` and emits the KV
request; returns `(msg_id, new state, outbound envelope)`. -/
def KafkaLog.sendToLinKv (s : KafkaLog) (p : KvStorePayload) :
    Nat × KafkaLog × OutMsg :=
  (s.nextId, { s with nextId := s.nextId + 1 },
    { dst := LIN_KV_SERVICE_ID, msg_id := s.nextId, in_reply_to := none
      payload := .kv p })

/-- `KafkaLog::reply`: replies to the original client through a fake incoming
message carrying `src = orig_msg_src` and `msg_id = orig_msg_id`. -/
def KafkaLog.replyTo (s : KafkaLog) (orig_msg_src : String) (orig_msg_id : Nat)
    (p : Payload) : KafkaLog × OutMsg :=
  ({ s with nextId := s.nextId + 1 },
    { dst := orig_msg_src, msg_id := s.nextId, in_reply_to := some orig_msg_id
      payload := .client p })

/-- `Node::reply` applied to the incoming message itself (used by the
empty-`Poll` early reply). -/
def KafkaLog.replyIncoming (s : KafkaLog) (message : KMsg) (p : Payload) :
    KafkaLog × OutMsg :=
  ({ s with nextId := s.nextId + 1 },
    { dst := message.src, msg_id := s.nextId, in_reply_to := message.body_id
      payload := .client p })

/-- Inner loop of the `Poll` branch: reads `entry-{key}-{i}` for `count`
consecutive offsets starting at `off`, recording one `PollEntry` per read. -/
def pollReadsFor (orig_msg_src : String) (orig_msg_id : Nat)
    (offsetsAll : List (String × Nat)) (key : String) :
    Nat → Nat → KafkaLog → KafkaLog × List OutMsg
  | _, 0, s => (s, [])
  | off, count + 1, s =>
      let r := s.sendToLinKv (.Read (logged_msg_key key off))
      let s := r.2.1
      let e : PollEntry :=
        { orig_msg_id := orig_msg_id, orig_msg_src := orig_msg_src
          requested_key_offsets := offsetsAll, key := key, offset := off }
      let s := { s with poll_msg_keys := fmInsert s.poll_msg_keys r.1 e }
      let rest := pollReadsFor orig_msg_src orig_msg_id offsetsAll key (off + 1) count s
      (rest.1, r.2.2 :: rest.2)

/-- Outer loop of the `Poll` branch over the requested `(key, offset)` pairs;
an offset of `0` is coerced to `1`. -/
def pollReads (orig_msg_src : String) (orig_msg_id : Nat)
    (offsetsAll : List (String × Nat)) :
    List (String × Nat) → KafkaLog → KafkaLog × List OutMsg
  | [], s => (s, [])
  | (key, off) :: pending, s =>
      let off := if off = 0 then 1 else off
      let r := pollReadsFor orig_msg_src orig_msg_id offsetsAll key off
        NUM_POLLED_MESSAGES s
      let rest := pollReads orig_msg_src orig_msg_id offsetsAll pending r.1
      (rest.1, r.2 ++ rest.2)

/-- Loop of the `CommitOffsets` branch: one `write committed-offset-{k}` per
requested entry. -/
def commitWrites (orig_msg_src : String) (orig_msg_id : Nat) (total : Nat) :
    List (String × Nat) → KafkaLog → KafkaLog × List OutMsg
  | [], s => (s, [])
  | (key, off) :: pending, s =>
      let r := s.sendToLinKv (.Write (committed_offset_key key) off)
      let s := r.2.1
      let e : CommitOffsetEntry :=
        { orig_msg_id := orig_msg_id, orig_msg_src := orig_msg_src, key := key
          requested_keys_count := total }
      let s := { s with commit_msg_keys := fmInsert s.commit_msg_keys r.1 e }
      let rest := commitWrites orig_msg_src orig_msg_id total pending s
      (rest.1, r.2.2 :: rest.2)

/-- Loop of the `ListCommittedOffsets` branch: one `read committed-offset-{k}`
per requested key. -/
def listReads (orig_msg_src : String) (orig_msg_id : Nat) (total : Nat) :
    List String → KafkaLog → KafkaLog × List OutMsg
  | [], s => (s, [])
  | key :: pending, s =>
      let r := s.sendToLinKv (.Read (committed_offset_key key))
      let s := r.2.1
      let e : CommitOffsetEntry :=
        { orig_msg_id := orig_msg_id, orig_msg_src := orig_msg_src, key := key
          requested_keys_count := total }
      let s := { s with committed_offset_reads := fmInsert s.committed_offset_reads r.1 e }
      let rest := listReads orig_msg_src orig_msg_id total pending s
      (rest.1, r.2.2 :: rest.2)

/-- The `messages` container initialization of the `Poll` branch. -/
def initMessages (offsets : List (String × Nat)) :
    List (String × List (Nat × Nat)) :=
  offsets.foldl (fun acc kv => fmInsert acc kv.1 []) []

/-- Accumulating loop building `returned_msgs` over the keys of
`requested_key_offsets`; `none` models the panic of `unwrap` on an absent
key. -/
def buildReturnedAux (msgs : List (String × List (Nat × Nat)))
    (acc : List (String × List (Nat × Nat))) :
    List (String × Nat) → Option (List (String × List (Nat × Nat)))
  | [] => some acc
  | (key, _) :: rest =>
      match fmFind msgs key with
      | some ms => buildReturnedAux msgs (fmInsert acc key ms) rest
      | none => none

/-- `returned_msgs` built in the poll-completion paths. -/
def buildReturned (msgs : List (String × List (Nat × Nat)))
    (req : List (String × Nat)) : Option (List (String × List (Nat × Nat))) :=
  buildReturnedAux msgs [] req

/-- The copy loop building the `ListCommittedOffsetsOk` reply map. -/
def copyOffsets (l : List (String × Nat)) : List (String × Nat) :=
  l.foldl (fun acc kv => fmInsert acc kv.1 kv.2) []

/-- `KafkaLog::handle`.  Returns the envelopes written to stdout (kept even
when the handler subsequently fails) and the resulting state, or the
`bail!`/panic message. -/
def handle (s : KafkaLog) (message : KMsg) :
    List OutMsg × Except String KafkaLog :=
  match message.payload with
  | .Send key msg =>
      let kv_offset_key := offsetKey key
      let r := s.sendToLinKv (.Read kv_offset_key)
      let read_msg_id := r.1
      let s := r.2.1
      let s := { s with offset_reads := fmInsert s.offset_reads read_msg_id kv_offset_key }
      match message.body_id with
      | none => ([r.2.2], .error "message id must be set")
      | some orig_msg_id =>
          let e : SendEntry :=
            { orig_msg_id := orig_msg_id, orig_msg_src := message.src, key := key
              offset := 0, msg := msg }
          ([r.2.2], .ok { s with send_msg_keys := fmInsert s.send_msg_keys read_msg_id e })
  | .Poll offsets =>
      if offsets.isEmpty then
        let r := s.replyIncoming message (.PollOk [])
        ([r.2], .ok r.1)
      else
        match message.body_id with
        | none => ([], .error "message id must be set")
        | some orig_msg_id =>
            let k := aggKey message.src orig_msg_id
            let pm : PolledMessages :=
              { messages := initMessages offsets
                requested_keys := offsets.map Prod.fst
                completed_keys := [] }
            let s := { s with polled_messages := fmInsert s.polled_messages k pm }
            let r := pollReads message.src orig_msg_id offsets offsets s
            (r.2, .ok r.1)
  | .CommitOffsets offsets =>
      match message.body_id with
      | none => ([], .error "message id must be set")
      | some orig_msg_id =>
          let cw := fmInsert s.committed_offsets_written (aggKey message.src orig_msg_id) 0
          let s := { s with committed_offsets_written := cw }
          let r := commitWrites message.src orig_msg_id offsets.length offsets s
          (r.2, .ok r.1)
  | .ListCommittedOffsets keys =>
      match message.body_id with
      | none => ([], .error "message id must be set")
      | some orig_msg_id =>
          let r := listReads message.src orig_msg_id keys.length keys s
          let s := r.1
          let co : CommittedOffsets := { requested_keys := keys, offsets := [] }
          let lco := fmInsert s.list_committed_offsets (aggKey message.src orig_msg_id) co
          let s := { s with list_committed_offsets := lco }
          (r.2, .ok s)
  | .ReadOk value =>
      match message.in_reply_to with
      | none => ([], .error "in_reply_to must be set")
      | some msg_id =>
        match fmFind s.offset_reads msg_id with
        | some kv_offset_key =>
            let s := { s with offset_reads := fmErase s.offset_reads msg_id }
            let incremented_offset := value + 1
            let r := s.sendToLinKv (.Cas kv_offset_key value incremented_offset false)
            let cas_msg_id := r.1
            let s := r.2.1
            let ou := fmInsert s.offset_updates cas_msg_id (kv_offset_key, incremented_offset)
            let s := { s with offset_updates := ou }
            match fmFind s.send_msg_keys msg_id with
            | some entry =>
                let smk := fmInsert (fmErase s.send_msg_keys msg_id) cas_msg_id entry
                ([r.2.2], .ok { s with send_msg_keys := smk })
            | none => ([r.2.2], .ok s)
        | none =>
        match fmFind s.poll_msg_keys msg_id with
        | some entry =>
            let s := { s with poll_msg_keys := fmErase s.poll_msg_keys msg_id }
            let k := aggKey entry.orig_msg_src entry.orig_msg_id
            match fmFind s.polled_messages k with
            | none => ([], .error "entry in polled_messages was inserted in Poll msg branch")
            | some pm =>
                let pmm := fmModify pm.messages entry.key fun v => v ++ [(entry.offset, value)]
                let pm := { pm with messages := pmm }
                match fmFind pm.messages entry.key with
                | none => ([], .error "key must be present")
                | some lst =>
                    let pm := if NUM_POLLED_MESSAGES ≤ lst.length then
                        { pm with completed_keys := setInsert pm.completed_keys entry.key }
                      else pm
                    let s := { s with polled_messages := fmInsert s.polled_messages k pm }
                    if !pm.all_completed then ([], .ok s)
                    else
                      match buildReturned pm.messages entry.requested_key_offsets with
                      | none => ([], .error "key must be present")
                      | some returned =>
                          let s := { s with polled_messages := fmErase s.polled_messages k }
                          let r := s.replyTo entry.orig_msg_src entry.orig_msg_id
                            (.PollOk returned)
                          ([r.2], .ok r.1)
        | none =>
        match fmFind s.committed_offset_reads msg_id with
        | some entry =>
            let cor := fmErase s.committed_offset_reads msg_id
            let s := { s with committed_offset_reads := cor }
            let k := aggKey entry.orig_msg_src entry.orig_msg_id
            match fmFind s.list_committed_offsets k with
            | none => ([], .error "item is present")
            | some co =>
                let co := { co with offsets := fmInsert co.offsets entry.key value }
                let lco := fmInsert s.list_committed_offsets k co
                let s := { s with list_committed_offsets := lco }
                if !co.all_completed then ([], .ok s)
                else
                  let offsets := copyOffsets co.offsets
                  let lco := fmErase s.list_committed_offsets k
                  let s := { s with list_committed_offsets := lco }
                  let r := s.replyTo entry.orig_msg_src entry.orig_msg_id
                    (.ListCommittedOffsetsOk offsets)
                  ([r.2], .ok r.1)
        | none => ([], .error "Unhandled ReadOk message")
  | .CasOk =>
      match message.in_reply_to with
      | none => ([], .error "in_reply_to must be set")
      | some msg_id =>
        match fmFind s.offset_updates msg_id with
        | some kv =>
            let incremented_offset := kv.2
            let s := { s with offset_updates := fmErase s.offset_updates msg_id }
            match fmFind s.send_msg_keys msg_id with
            | some entry =>
                let entry := { entry with offset := incremented_offset }
                let s := { s with send_msg_keys := fmErase s.send_msg_keys msg_id }
                let r := s.sendToLinKv
                  (.Write (logged_msg_key entry.key incremented_offset) entry.msg)
                let s := r.2.1
                ([r.2.2], .ok { s with send_msg_keys := fmInsert s.send_msg_keys r.1 entry })
            | none => ([], .error "MISSING item in msg_keys!!!! (CasOk)")
        | none => ([], .error "Unhandled CasOk message")
  | .WriteOk =>
      match message.in_reply_to with
      | none => ([], .error "in_reply_to must be set")
      | some msg_id =>
        match fmFind s.send_msg_keys msg_id with
        | some entry =>
            let s := { s with send_msg_keys := fmErase s.send_msg_keys msg_id }
            let r := s.replyTo entry.orig_msg_src entry.orig_msg_id (.SendOk entry.offset)
            ([r.2], .ok r.1)
        | none =>
        match fmFind s.commit_msg_keys msg_id with
        | some entry =>
            let s := { s with commit_msg_keys := fmErase s.commit_msg_keys msg_id }
            let k := aggKey entry.orig_msg_src entry.orig_msg_id
            match fmFind s.committed_offsets_written k with
            | none => ([], .error "item must be present")
            | some cnt =>
                let cnt := cnt + 1
                let cw := fmInsert s.committed_offsets_written k cnt
                let s := { s with committed_offsets_written := cw }
                if cnt < entry.requested_keys_count then ([], .ok s)
                else
                  let r := s.replyTo entry.orig_msg_src entry.orig_msg_id .CommitOffsetsOk
                  let cw := fmErase r.1.committed_offsets_written k
                  let s := { r.1 with committed_offsets_written := cw }
                  ([r.2], .ok s)
        | none => ([], .error "Unhandled WriteOk message")
  | .Error code _ =>
      match message.in_reply_to with
      | none => ([], .error "in_reply_to must be set")
      | some msg_id =>
        if code = ERROR_KEY_DOES_NOT_EXIST then
          match fmFind s.offset_reads msg_id with
          | some kv_offset_key =>
              let s := { s with offset_reads := fmErase s.offset_reads msg_id }
              let r := s.sendToLinKv (.Cas kv_offset_key 0 1 true)
              let cas_msg_id := r.1
              let s := r.2.1
              let ou := fmInsert s.offset_updates cas_msg_id (kv_offset_key, 1)
              let s := { s with offset_updates := ou }
              match fmFind s.send_msg_keys msg_id with
              | some entry =>
                  let smk := fmInsert (fmErase s.send_msg_keys msg_id) cas_msg_id entry
                  ([r.2.2], .ok { s with send_msg_keys := smk })
              | none => ([r.2.2], .error "MISSING item in msg_keys!!!! (Error msg)")
          | none =>
          match fmFind s.poll_msg_keys msg_id with
          | some entry =>
              let s := { s with poll_msg_keys := fmErase s.poll_msg_keys msg_id }
              let k := aggKey entry.orig_msg_src entry.orig_msg_id
              match fmFind s.polled_messages k with
              | none => ([], .ok s)
              | some pm =>
                  let pm := { pm with completed_keys := setInsert pm.completed_keys entry.key }
                  let s := { s with polled_messages := fmInsert s.polled_messages k pm }
                  if !pm.all_completed then ([], .ok s)
                  else
                    match buildReturned pm.messages entry.requested_key_offsets with
                    | none => ([], .error "key must be present")
                    | some returned =>
                        let s := { s with polled_messages := fmErase s.polled_messages k }
                        let r := s.replyTo entry.orig_msg_src entry.orig_msg_id
                          (.PollOk returned)
                        ([r.2], .ok r.1)
          | none =>
          match fmFind s.committed_offset_reads msg_id with
          | some entry =>
              let cor := fmErase s.committed_offset_reads msg_id
              let s := { s with committed_offset_reads := cor }
              let r := s.replyTo entry.orig_msg_src entry.orig_msg_id
                (.ListCommittedOffsetsOk [])
              ([r.2], .ok r.1)
          | none => ([], .error "Uncaught ERROR_KEY_DOES_NOT_EXIST")
        else if code = ERROR_PRECONDITION_FAILED then
          match fmFind s.offset_updates msg_id with
          | some kv =>
              let value := kv.2
              let s := { s with offset_updates := fmErase s.offset_updates msg_id }
              let incremented_offset := value + 1
              let r := s.sendToLinKv (.Cas kv.1 value incremented_offset false)
              let cas_msg_id := r.1
              let s := r.2.1
              let ou := fmInsert s.offset_updates cas_msg_id (kv.1, incremented_offset)
              let s := { s with offset_updates := ou }
              match fmFind s.send_msg_keys msg_id with
              | some entry =>
                  let smk := fmInsert (fmErase s.send_msg_keys msg_id) cas_msg_id entry
                  ([r.2.2], .ok { s with send_msg_keys := smk })
              | none => ([r.2.2], .error "MISSING item in msg_keys!!!! (Error msg)")
          | none => ([], .error "Uncaught ERROR_PRECONDITION_FAILED")
        else
          ([], .error "Uncaught Error message")
  | .SendOk _ => ([], .ok s)
  | .PollOk _ => ([], .ok s)
  | .CommitOffsetsOk => ([], .ok s)
  | .ListCommittedOffsetsOk _ => ([], .ok s)

/-- The event loop restricted to the kafka handler: dispatches the input
messages in order, stopping (with the outputs already written) at the first
handler error, which aborts the process. -/
def runKafka (s : KafkaLog) : List KMsg → KafkaLog × List OutMsg
  | [] => (s, [])
  | m :: rest =>
      let r := handle s m
      match r.2 with
      | .error _ => (s, r.1)
      | .ok s' =>
          let rr := runKafka s' rest
          (rr.1, r.1 ++ rr.2)

/-! ### Notions used to state and prove the poll-window property -/

/-- The requested-offset coercion of the `Poll` branch (`0` is coerced to
`1`; the log is 1-indexed). -/
def coerceOff (n : Nat) : Nat := if n = 0 then 1 else n

/-- The aggregator key `"{orig_src}-{orig_msg_id}"` of a `PollEntry`. -/
def PollEntry.aggOf (e : PollEntry) : String := aggKey e.orig_msg_src e.orig_msg_id

/-- The `(aggregator key, requested offsets)` pairs of the `Poll` requests of
an input trace (in order). -/
def pollsOf : List KMsg → List (String × List (String × Nat))
  | [] => []
  | m :: rest =>
      match m.payload, m.body_id with
      | .Poll offs, some i => (aggKey m.src i, offs) :: pollsOf rest
      | _, _ => pollsOf rest

/-- Well-formedness of an input trace, reflecting the Maelstrom environment:
distinct clients/requests never share a `(src, msg_id)` pair (hence distinct
aggregator keys), and a `poll`'s offsets map — a JSON object — has no
duplicate keys. -/
def TraceWF (trace : List KMsg) : Prop :=
  ((pollsOf trace).map Prod.fst).Nodup ∧
  ∀ m ∈ trace, ∀ offs, m.payload = .Poll offs → (offs.map Prod.fst).Nodup

/-- The poll-read entries created by `pollReadsFor`, with their request ids
(specification helper mirroring that loop). -/
def newEntriesFor (orig_msg_src : String) (orig_msg_id : Nat)
    (offsetsAll : List (String × Nat)) (key : String) :
    Nat → Nat → Nat → List (Nat × PollEntry)
  | _, 0, _ => []
  | off, count + 1, n =>
      (n, ⟨orig_msg_id, orig_msg_src, offsetsAll, key, off⟩) ::
        newEntriesFor orig_msg_src orig_msg_id offsetsAll key (off + 1) count (n + 1)

/-- The poll-read entries created by `pollReads`. -/
def newEntries (orig_msg_src : String) (orig_msg_id : Nat)
    (offsetsAll : List (String × Nat)) :
    List (String × Nat) → Nat → List (Nat × PollEntry)
  | [], _ => []
  | (key, off) :: pending, n =>
      newEntriesFor orig_msg_src orig_msg_id offsetsAll key (coerceOff off)
          NUM_POLLED_MESSAGES n ++
        newEntries orig_msg_src orig_msg_id offsetsAll pending
          (n + NUM_POLLED_MESSAGES)

/-- Number of outstanding poll reads of aggregator `K` for log key `k`. -/
def countE (pmk : List (Nat × PollEntry)) (K k : String) : Nat :=
  pmk.countP fun p => decide (p.2.aggOf = K) && decide (p.2.key = k)

/-- The consumed entry agrees with the requested offsets `R` of its poll. -/
def entryAgrees (R : List (String × Nat)) (e : PollEntry) : Prop :=
  e.requested_key_offsets = R ∧
  ∃ off, fmFind R e.key = some off ∧ coerceOff off ≤ e.offset

/-- Invariant tying one live aggregator to its poll request `R`: all its
outstanding reads carry `R`; the `messages` container has exactly the keys of
`R`; and per key, collected messages plus outstanding reads never exceed the
window, every collected offset being at least the (coerced) requested one. -/
def aggInv (P : List (String × List (String × Nat)))
    (pmk : List (Nat × PollEntry)) (K : String) (A : PolledMessages) : Prop :=
  ∃ R, fmFind P K = some R ∧ (R.map Prod.fst).Nodup ∧
    A.messages.map Prod.fst = R.map Prod.fst ∧
    (∀ e ∈ pmk, e.2.aggOf = K → entryAgrees R e.2) ∧
    (∀ k ms, fmFind A.messages k = some ms →
      ms.length + countE pmk K k ≤ NUM_POLLED_MESSAGES ∧
      ∃ off, fmFind R k = some off ∧ ∀ p ∈ ms, coerceOff off ≤ p.1)

/-- The inductive state invariant for the poll-window property, relative to
the polls `P` seen so far. -/
def Inv (P : List (String × List (String × Nat))) (s : KafkaLog) : Prop :=
  (∀ e ∈ s.poll_msg_keys, e.1 < s.nextId) ∧
  (s.poll_msg_keys.map Prod.fst).Nodup ∧
  (s.polled_messages.map Prod.fst).Nodup ∧
  (∀ e ∈ s.poll_msg_keys, e.2.aggOf ∈ P.map Prod.fst) ∧
  (∀ K A, fmFind s.polled_messages K = some A → aggInv P s.poll_msg_keys K A)

/-- A `poll_ok` output is *anchored*: its destination and `in_reply_to`
identify a poll in `P`, and its contents respect that poll's window. -/
def PollOkAnchored (P : List (String × List (String × Nat))) (o : OutMsg) : Prop :=
  ∀ msgs, o.payload = .client (.PollOk msgs) → ∀ i, o.in_reply_to = some i →
    ∃ R, fmFind P (aggKey o.dst i) = some R ∧
      ∀ k ms, (k, ms) ∈ msgs →
        ms.length ≤ NUM_POLLED_MESSAGES ∧
        ∀ p ∈ ms, ∀ off, fmFind R k = some off → coerceOff off ≤ p.1

end Kafka

/-! ## Grow-only counter handler (`src/bin/g-counter.rs`) -/

namespace GCounter

def COUNTER_KEY : String := "g-counter"

/-- The `Payload` enum of `g-counter.rs`. -/
inductive Payload : Type
  | Add (delta : Nat)
  | AddOk
  | Read
  | ReadOk (value : Nat)
  | Error (code : Nat) (text : String)
  | WriteOk
  | CasOk
deriving DecidableEq

/-- The `KvStorePayload` enum of `g-counter.rs`. -/
inductive KvStorePayload : Type
  | Write (key : String) (value : Nat)
  | Read (key : String)
  | Cas (key : String) (from_ : Nat) (to_ : Nat) (create_if_not_exists : Bool)
deriving DecidableEq

/-- An outbound payload of the g-counter node. -/
inductive OutPayload : Type
  | kv (p : KvStorePayload)
  | client (p : Payload)
deriving DecidableEq

/-- An outbound envelope of the g-counter node. -/
structure OutMsg where
  dst : String
  msg_id : Nat
  in_reply_to : Option Nat
  payload : OutPayload
deriving DecidableEq

/-- An incoming envelope as seen by the g-counter handler. -/
structure GMsg where
  src : String
  body_id : Option Nat
  in_reply_to : Option Nat
  payload : Payload
deriving DecidableEq

/-- The `GCounter` handler struct plus the `Node` `msg_id` counter it
consumes through `send_to` / `reply`. -/
structure GState where
  nextId : Nat
  kv_msg_ids : List (Nat × (String × Nat))
  deltas : List (Nat × Nat)
deriving DecidableEq

/-- `GCounter::default()` with the node counter at `n`. -/
def GState.empty (n : Nat) : GState :=
  { nextId := n, kv_msg_ids := [], deltas := [] }

/-- `node.send_to(SEQ_KV_SERVICE_ID, payload)`. -/
def GState.sendToSeqKv (s : GState) (p : KvStorePayload) : Nat × GState × OutMsg :=
  (s.nextId, { s with nextId := s.nextId + 1 },
    { dst := SEQ_KV_SERVICE_ID, msg_id := s.nextId, in_reply_to := none
      payload := .kv p })

/-- `node.reply(m, payload)` for a (possibly faked) incoming message with
source `dst` and `msg_id = irt`. -/
def GState.replyTo (s : GState) (dst : String) (irt : Option Nat) (p : Payload) :
    GState × OutMsg :=
  ({ s with nextId := s.nextId + 1 },
    { dst := dst, msg_id := s.nextId, in_reply_to := irt, payload := .client p })

/-- `GCounter::handle`.  `now` is the wall-clock nanosecond count read in the
`Read` branch (a runtime input of the fence write). -/
def gHandle (s : GState) (msg : GMsg) (now : Nat) :
    List OutMsg × Except String GState :=
  match msg.payload with
  | .Add delta =>
      let r := s.sendToSeqKv (.Read COUNTER_KEY)
      let kv_msg_id := r.1
      let s := r.2.1
      let s := { s with deltas := fmInsert s.deltas kv_msg_id delta }
      let rep := s.replyTo msg.src msg.body_id .AddOk
      ([r.2.2, rep.2], .ok rep.1)
  | .Read =>
      let w := s.sendToSeqKv (.Write "timestamp" now)
      let s := w.2.1
      let r := s.sendToSeqKv (.Read COUNTER_KEY)
      let kv_msg_id := r.1
      let s := r.2.1
      match msg.body_id with
      | none => ([w.2.2, r.2.2], .error "message id must be set")
      | some orig_msg_id =>
          let ids := fmInsert s.kv_msg_ids kv_msg_id (msg.src, orig_msg_id)
          ([w.2.2, r.2.2], .ok { s with kv_msg_ids := ids })
  | .ReadOk value =>
      match msg.in_reply_to with
      | none => ([], .error "in_reply_to must be set")
      | some kv_read_msg_id =>
        match fmFind s.kv_msg_ids kv_read_msg_id with
        | some orig =>
            let s := { s with kv_msg_ids := fmErase s.kv_msg_ids kv_read_msg_id }
            let rep := s.replyTo orig.1 (some orig.2) (.ReadOk value)
            ([rep.2], .ok rep.1)
        | none =>
          match fmFind s.deltas kv_read_msg_id with
          | some delta =>
              let s := { s with deltas := fmErase s.deltas kv_read_msg_id }
              let r := s.sendToSeqKv (.Cas COUNTER_KEY value (value + delta) false)
              let kv_cas_msg_id := r.1
              let s := r.2.1
              ([r.2.2], .ok { s with deltas := fmInsert s.deltas kv_cas_msg_id delta })
          | none => ([], .error "msg_id is missing in deltas")
  | .CasOk =>
      match msg.in_reply_to with
      | none => ([], .error "in_reply_to must be set")
      | some cas_msg_id =>
          ([], .ok { s with deltas := fmErase s.deltas cas_msg_id })
  | .Error code _ =>
      if code = ERROR_PRECONDITION_FAILED then
        match msg.in_reply_to with
        | none => ([], .error "in_reply_to must be set")
        | some kv_msg_id =>
          match fmFind s.deltas kv_msg_id with
          | some delta =>
              let s := { s with deltas := fmErase s.deltas kv_msg_id }
              let r := s.sendToSeqKv (.Read COUNTER_KEY)
              let s := r.2.1
              ([r.2.2], .ok { s with deltas := fmInsert s.deltas r.1 delta })
          | none => ([], .ok s)
      else
        ([], .ok s)
  | .AddOk => ([], .ok s)
  | .WriteOk => ([], .ok s)

end GCounter

/-! ## Node runtime (`src/lib.rs`) -/

namespace Runtime

/-- `Body<P>` (`msg_id` is serialized from field `id`). -/
structure Body (P : Type) where
  id : Option Nat
  in_reply_to : Option Nat
  payload : P
deriving DecidableEq

/-- `Message<P>` (`dst` is spelled `dest` on the wire). -/
structure Message (P : Type) where
  src : String
  dst : String
  body : Body P
deriving DecidableEq

/-- The `InitPayload` enum. -/
inductive InitPayload : Type
  | Init (node_id : String) (node_ids : List String)
  | InitOk
deriving DecidableEq

/-- The `Inner` state of a `Node`: identity and the `msg_id` counter. -/
structure Inner where
  id : String
  node_ids : List String
  msg_id : Nat
deriving DecidableEq

/-- `Node::new_msg_id`: returns the current counter and increments it. -/
def newMsgId (n : Inner) : Nat × Inner :=
  (n.msg_id, { n with msg_id := n.msg_id + 1 })

/-- `Node::new`: consumes the first envelope read from stdin; on `init` it
records identity and emits the `init_ok` reply, on anything else it fails
(which is fatal to the process). -/
def nodeNew (first : Message InitPayload) :
    Except String (Inner × Message InitPayload) :=
  let node : Inner := { id := "", node_ids := [], msg_id := 1 }
  match first.body.payload with
  | .Init node_id node_ids =>
      let node := { node with id := node_id, node_ids := node_ids }
      let r := newMsgId node
      let node := r.2
      .ok (node,
        { src := node.id, dst := first.src
          body := { id := some r.1, in_reply_to := first.body.id, payload := .InitOk } })
  | .InitOk => .error "Unexpected message received"

/-- `Node::reply`: fresh `msg_id`, `src = self.id`, `dest = incoming.src`,
`in_reply_to = incoming.body.msg_id`. -/
def reply {P : Type} (n : Inner) (incoming : Message P) (p : P) :
    Inner × Message P :=
  let r := newMsgId n
  (r.2, { src := r.2.id, dst := incoming.src
          body := { id := some r.1, in_reply_to := incoming.body.id, payload := p } })

/-- `Node::send_to`: fresh `msg_id`, no `in_reply_to`; returns the id. -/
def sendTo {P : Type} (n : Inner) (dst : String) (p : P) :
    Inner × Nat × Message P :=
  let r := newMsgId n
  (r.2, r.1, { src := r.2.id, dst := dst
               body := { id := some r.1, in_reply_to := none, payload := p } })

/-- One emission through the runtime: either a reply to some incoming
message or a `send_to`. -/
inductive Op (P : Type) : Type
  | reply (incoming : Message P) (p : P)
  | sendTo (dst : String) (p : P)

/-- Run a sequence of `reply`/`send_to` operations, collecting the emitted
envelopes in order. -/
def runOps {P : Type} (n : Inner) : List (Op P) → Inner × List (Message P)
  | [] => (n, [])
  | .reply m p :: rest =>
      let r := reply n m p
      let rr := runOps r.1 rest
      (rr.1, r.2 :: rr.2)
  | .sendTo d p :: rest =>
      let r := sendTo n d p
      let rr := runOps r.1 rest
      (rr.1, r.2.2 :: rr.2)

end Runtime

/-! ## Helper lemmas -/

theorem pairwise_lt_range' (n s : Nat) : List.Pairwise (· < ·) (List.range' s n) := by
  induction n generalizing s with
  | zero => simp
  | succ k ih =>
      rw [List.range'_succ s k 1]
      refine List.Pairwise.cons ?_ (ih (s + 1))
      intro b hb
      have h := List.mem_range'_1.1 hb
      omega

theorem runOps_spec {P : Type} (ops : List (Runtime.Op P)) (n : Runtime.Inner) :
    (Runtime.runOps n ops).1.id = n.id ∧
    (Runtime.runOps n ops).2.map (fun m => m.body.id)
      = (List.range' n.msg_id ops.length).map some ∧
    (∀ m ∈ (Runtime.runOps n ops).2, m.src = n.id) := by
  induction ops generalizing n with
  | nil => simp [Runtime.runOps]
  | cons op rest ih =>
      cases op with
      | reply m p =>
          have h := ih { n with msg_id := n.msg_id + 1 }
          refine ⟨h.1, ?_, ?_⟩
          · simp only [Runtime.runOps, Runtime.reply, Runtime.newMsgId, List.map_cons,
              List.length_cons, List.range'_succ n.msg_id rest.length 1, h.2.1]
          · intro m hm
            simp only [Runtime.runOps, Runtime.reply, Runtime.newMsgId, List.mem_cons] at hm
            rcases hm with rfl | hm
            · rfl
            · exact h.2.2 m hm
      | sendTo d p =>
          have h := ih { n with msg_id := n.msg_id + 1 }
          refine ⟨h.1, ?_, ?_⟩
          · simp only [Runtime.runOps, Runtime.sendTo, Runtime.newMsgId, List.map_cons,
              List.length_cons, List.range'_succ n.msg_id rest.length 1, h.2.1]
          · intro m hm
            simp only [Runtime.runOps, Runtime.sendTo, Runtime.newMsgId, List.mem_cons] at hm
            rcases hm with rfl | hm
            · rfl
            · exact h.2.2 m hm

theorem fmFind_fmInsert {κ α : Type} [DecidableEq κ] (l : List (κ × α)) (k k' : κ)
    (v : α) :
    fmFind (fmInsert l k v) k' = if k = k' then some v else fmFind l k' := by
  induction l with
  | nil => simp [fmFind, fmInsert]
  | cons hd t ih =>
      obtain ⟨k₀, v₀⟩ := hd
      by_cases h0 : k₀ = k
      · subst h0
        by_cases h1 : k₀ = k' <;> simp [fmInsert, fmFind, h1]
      · by_cases h1 : k₀ = k'
        · subst h1
          have hne : k ≠ k₀ := fun he => h0 he.symm
          simp [fmInsert, fmFind, h0, hne]
        · simp [fmInsert, fmFind, h0, h1, ih]

theorem mem_fmInsert {κ α : Type} [DecidableEq κ] {l : List (κ × α)} {k : κ} {v : α}
    {x : κ × α} (hx : x ∈ fmInsert l k v) : x = (k, v) ∨ x ∈ l := by
  induction l with
  | nil => simpa [fmInsert] using hx
  | cons hd t ih =>
      obtain ⟨k₀, v₀⟩ := hd
      by_cases h0 : k₀ = k
      · subst h0
        rw [fmInsert, if_pos rfl] at hx
        rcases List.mem_cons.1 hx with h | h
        · exact Or.inl h
        · exact Or.inr (List.mem_cons_of_mem _ h)
      · rw [fmInsert, if_neg h0] at hx
        rcases List.mem_cons.1 hx with h | h
        · exact Or.inr (by rw [h]; exact List.mem_cons_self _ _)
        · rcases ih h with h2 | h2
          · exact Or.inl h2
          · exact Or.inr (List.mem_cons_of_mem _ h2)

theorem fmInsert_of_not_mem {κ α : Type} [DecidableEq κ] {l : List (κ × α)} {k : κ}
    (v : α) (h : k ∉ l.map Prod.fst) : fmInsert l k v = l ++ [(k, v)] := by
  induction l with
  | nil => rfl
  | cons hd t ih =>
      obtain ⟨k₀, v₀⟩ := hd
      simp only [List.map_cons, List.mem_cons, not_or] at h
      have hne : k₀ ≠ k := fun he => h.1 he.symm
      rw [fmInsert, if_neg hne, ih h.2, List.cons_append]

theorem fmFind_eq_none {κ α : Type} [DecidableEq κ] {l : List (κ × α)} {k : κ} :
    fmFind l k = none ↔ k ∉ l.map Prod.fst := by
  induction l with
  | nil => simp [fmFind]
  | cons hd t ih =>
      obtain ⟨k₀, v₀⟩ := hd
      by_cases h0 : k₀ = k
      · subst h0
        rw [fmFind, if_pos rfl]
        simp
      · have hks : ¬ k = k₀ := fun he => h0 he.symm
        rw [fmFind, if_neg h0]
        simp [ih, hks]

theorem fmFind_mem {κ α : Type} [DecidableEq κ] {l : List (κ × α)} {k : κ} {v : α}
    (h : fmFind l k = some v) : (k, v) ∈ l := by
  induction l with
  | nil => simp [fmFind] at h
  | cons hd t ih =>
      obtain ⟨k₀, v₀⟩ := hd
      by_cases h0 : k₀ = k
      · subst h0
        rw [fmFind, if_pos rfl] at h
        injection h with h
        rw [← h]
        exact List.mem_cons_self _ _
      · rw [fmFind, if_neg h0] at h
        exact List.mem_cons_of_mem _ (ih h)

theorem fmFind_of_mem_nodup {κ α : Type} [DecidableEq κ] {l : List (κ × α)} {k : κ}
    {v : α} (hnd : (l.map Prod.fst).Nodup) (h : (k, v) ∈ l) :
    fmFind l k = some v := by
  induction l with
  | nil => simp at h
  | cons hd t ih =>
      obtain ⟨k₀, v₀⟩ := hd
      simp only [List.map_cons, List.nodup_cons] at hnd
      rcases List.mem_cons.1 h with he | hm
      · injection he with h1 h2
        subst h1
        subst h2
        rw [fmFind, if_pos rfl]
      · have hne : k₀ ≠ k := by
          intro he
          subst he
          exact hnd.1 (List.mem_map_of_mem Prod.fst hm)
        rw [fmFind, if_neg hne]
        exact ih hnd.2 hm

theorem fmFind_append {κ α : Type} [DecidableEq κ] (l₁ l₂ : List (κ × α)) (k : κ) :
    fmFind (l₁ ++ l₂) k =
      match fmFind l₁ k with
      | some v => some v
      | none => fmFind l₂ k := by
  induction l₁ with
  | nil => simp [fmFind]
  | cons hd t ih =>
      obtain ⟨k₀, v₀⟩ := hd
      by_cases h0 : k₀ = k
      · subst h0
        rw [List.cons_append, fmFind, if_pos rfl, fmFind, if_pos rfl]
      · rw [List.cons_append, fmFind, if_neg h0, fmFind, if_neg h0, ih]

theorem fmFind_append_left {κ α : Type} [DecidableEq κ] {l₁ : List (κ × α)} {k : κ}
    {v : α} (l₂ : List (κ × α)) (h : fmFind l₁ k = some v) :
    fmFind (l₁ ++ l₂) k = some v := by
  rw [fmFind_append, h]

theorem fmFind_append_right {κ α : Type} [DecidableEq κ] {l₁ : List (κ × α)} {k : κ}
    (l₂ : List (κ × α)) (h : fmFind l₁ k = none) :
    fmFind (l₁ ++ l₂) k = fmFind l₂ k := by
  rw [fmFind_append, h]

theorem fmErase_sublist {κ α : Type} [DecidableEq κ] (l : List (κ × α)) (k : κ) :
    List.Sublist (fmErase l k) l := by
  induction l with
  | nil => simp [fmErase]
  | cons hd t ih =>
      obtain ⟨k₀, v₀⟩ := hd
      by_cases h0 : k₀ = k
      · rw [fmErase, if_pos h0]
        exact List.sublist_cons_self (k₀, v₀) t
      · rw [fmErase, if_neg h0]
        exact List.Sublist.cons₂ (k₀, v₀) ih

theorem fmErase_decomp {κ α : Type} [DecidableEq κ] {l : List (κ × α)} {k : κ} {v : α}
    (hnd : (l.map Prod.fst).Nodup) (hf : fmFind l k = some v) :
    ∃ l₁ l₂, l = l₁ ++ (k, v) :: l₂ ∧ fmErase l k = l₁ ++ l₂ ∧
      k ∉ (l₁ ++ l₂).map Prod.fst := by
  induction l with
  | nil => simp [fmFind] at hf
  | cons hd t ih =>
      obtain ⟨k₀, v₀⟩ := hd
      simp only [List.map_cons, List.nodup_cons] at hnd
      by_cases h0 : k₀ = k
      · subst h0
        rw [fmFind, if_pos rfl] at hf
        injection hf with hf
        subst hf
        refine ⟨[], t, rfl, by rw [fmErase, if_pos rfl]; rfl, ?_⟩
        simpa using hnd.1
      · rw [fmFind, if_neg h0] at hf
        obtain ⟨l₁, l₂, heq, her, hnk⟩ := ih hnd.2 hf
        refine ⟨(k₀, v₀) :: l₁, l₂, by rw [heq]; rfl, ?_, ?_⟩
        · rw [fmErase, if_neg h0, her, List.cons_append]
        · simp only [List.cons_append, List.map_cons, List.mem_cons, not_or]
          exact ⟨fun he => h0 he.symm, hnk⟩

theorem fmFind_fmErase {κ α : Type} [DecidableEq κ] {l : List (κ × α)} {k : κ}
    (hnd : (l.map Prod.fst).Nodup) (k' : κ) :
    fmFind (fmErase l k) k' = if k = k' then none else fmFind l k' := by
  induction l with
  | nil => simp [fmErase, fmFind]
  | cons hd t ih =>
      obtain ⟨k₀, v₀⟩ := hd
      simp only [List.map_cons, List.nodup_cons] at hnd
      by_cases h0 : k₀ = k
      · subst h0
        rw [fmErase, if_pos rfl]
        by_cases h1 : k₀ = k'
        · subst h1
          rw [if_pos rfl, fmFind_eq_none]
          exact hnd.1
        · rw [fmFind, if_neg h1, if_neg (fun he => h1 (by rw [he]))]
      · rw [fmErase, if_neg h0]
        by_cases h1 : k₀ = k'
        · subst h1
          have hne : k ≠ k₀ := fun he => h0 he.symm
          rw [fmFind, if_pos rfl, if_neg hne, fmFind, if_pos rfl]
        · rw [fmFind, if_neg h1, ih hnd.2, fmFind, if_neg h1]

theorem keys_fmInsert_of_found {κ α : Type} [DecidableEq κ] {l : List (κ × α)}
    {k : κ} {w : α} (v : α) (hf : fmFind l k = some w) :
    (fmInsert l k v).map Prod.fst = l.map Prod.fst := by
  induction l with
  | nil => simp [fmFind] at hf
  | cons hd t ih =>
      obtain ⟨k₀, v₀⟩ := hd
      by_cases h0 : k₀ = k
      · subst h0
        rw [fmInsert, if_pos rfl]
        simp
      · rw [fmFind, if_neg h0] at hf
        rw [fmInsert, if_neg h0, List.map_cons, List.map_cons, ih hf]

theorem keys_fmModify {κ α : Type} [DecidableEq κ] (l : List (κ × α)) (k : κ)
    (f : α → α) : (fmModify l k f).map Prod.fst = l.map Prod.fst := by
  induction l with
  | nil => rfl
  | cons hd t ih =>
      obtain ⟨k₀, v₀⟩ := hd
      by_cases h0 : k₀ = k
      · rw [fmModify, if_pos h0]
        simp
      · rw [fmModify, if_neg h0, List.map_cons, List.map_cons, ih]

theorem fmFind_fmModify {κ α : Type} [DecidableEq κ] (l : List (κ × α)) (k k' : κ)
    (f : α → α) :
    fmFind (fmModify l k f) k' =
      if k = k' then (fmFind l k).map f else fmFind l k' := by
  induction l with
  | nil => simp [fmModify, fmFind]
  | cons hd t ih =>
      obtain ⟨k₀, v₀⟩ := hd
      by_cases h0 : k₀ = k
      · subst h0
        by_cases h1 : k₀ = k'
        · subst h1
          rw [fmModify, if_pos rfl, fmFind, if_pos rfl, if_pos rfl, fmFind, if_pos rfl]
          rfl
        · rw [fmModify, if_pos rfl, fmFind, if_neg h1,
            if_neg (fun he => h1 (by rw [he])), fmFind, if_neg h1]
      · by_cases h1 : k₀ = k'
        · subst h1
          have hne : k ≠ k₀ := fun he => h0 he.symm
          rw [fmModify, if_neg h0, fmFind, if_pos rfl, if_neg hne, fmFind, if_pos rfl]
        · rw [fmModify, if_neg h0, fmFind, if_neg h1, ih, fmFind, if_neg h0, fmFind,
            if_neg h1]

/-! ## Claim theorems -/

/-- **C7.** For a `Send` on a brand-new key — the read of `offset-{key}`
answered by error code 20 (key-does-not-exist) — the handler issues
`cas from=0 to=1 create_if_not_exists=true`, and the eventual `send_ok`
reply to the original client carries `offset = 1`. -/
theorem C7_send_new_key_offset_one (key c : String) (msg i : Nat) :
    (Kafka.runKafka (Kafka.KafkaLog.empty 2)
      [⟨c, some i, none, .Send key msg⟩,
       ⟨LIN_KV_SERVICE_ID, none, some 2, .Error 20 "key does not exist"⟩,
       ⟨LIN_KV_SERVICE_ID, none, some 3, .CasOk⟩,
       ⟨LIN_KV_SERVICE_ID, none, some 4, .WriteOk⟩]).2 =
    [⟨LIN_KV_SERVICE_ID, 2, none, .kv (.Read (Kafka.offsetKey key))⟩,
     ⟨LIN_KV_SERVICE_ID, 3, none, .kv (.Cas (Kafka.offsetKey key) 0 1 true)⟩,
     ⟨LIN_KV_SERVICE_ID, 4, none, .kv (.Write (Kafka.logged_msg_key key 1) msg)⟩,
     ⟨c, 5, some i, .client (.SendOk 1)⟩] := rfl

/-- **C9.** On startup the runtime handles exactly one envelope, which must be
of type `init` carrying `node_id` and `node_ids`; it records both and replies
`init_ok` with `in_reply_to` equal to the init's `msg_id` and `msg_id = 1`;
any other first message makes `Node::new` fail, which is fatal. -/
theorem C9_init_handshake (first : Runtime.Message Runtime.InitPayload) :
    (∀ nid nids, first.body.payload = .Init nid nids →
      ∃ n0 rep, Runtime.nodeNew first = .ok (n0, rep) ∧
        n0.id = nid ∧ n0.node_ids = nids ∧ n0.msg_id = 2 ∧
        rep.src = nid ∧ rep.dst = first.src ∧
        rep.body.in_reply_to = first.body.id ∧ rep.body.id = some 1 ∧
        rep.body.payload = .InitOk) ∧
    (first.body.payload = .InitOk →
      Runtime.nodeNew first = .error "Unexpected message received") := by
  constructor
  · intro nid nids h
    refine ⟨{ id := nid, node_ids := nids, msg_id := 2 },
        { src := nid, dst := first.src
          body := { id := some 1, in_reply_to := first.body.id, payload := .InitOk } },
        ?_, rfl, rfl, rfl, rfl, rfl, rfl, rfl, rfl⟩
    simp [Runtime.nodeNew, h, Runtime.newMsgId]
  · intro h
    simp [Runtime.nodeNew, h]

/-- Closed witness for `C9_init_handshake`, at the end-to-end init scenario
of the specification. -/
theorem C9_init_handshake_witness :
    ∃ n0 rep,
      Runtime.nodeNew
        { src := "c0", dst := "n1"
          body := { id := some 1, in_reply_to := none
                    payload := .Init "n1" ["n1"] } } = .ok (n0, rep) ∧
      n0.id = "n1" ∧ n0.node_ids = ["n1"] ∧ n0.msg_id = 2 ∧
      rep.src = "n1" ∧ rep.dst = "c0" ∧
      rep.body.in_reply_to = some 1 ∧ rep.body.id = some 1 ∧
      rep.body.payload = .InitOk :=
  (C9_init_handshake _).1 "n1" ["n1"] rfl

/-- **C10.** A KV success reply that matches no outstanding correlation entry
is fatal, not ignored: an unmatched `read_ok` in the g-counter handler, and
an unmatched `read_ok`/`cas_ok`/`write_ok` in the kafka handler, make the
handler return an error, which aborts the process. -/
theorem C10_unmatched_kv_reply_fatal (gs : GCounter.GState) (ks : Kafka.KafkaLog)
    (m v now : Nat) (src : String) :
    (fmFind gs.kv_msg_ids m = none → fmFind gs.deltas m = none →
      GCounter.gHandle gs ⟨src, none, some m, .ReadOk v⟩ now
        = ([], .error "msg_id is missing in deltas")) ∧
    (fmFind ks.offset_reads m = none → fmFind ks.poll_msg_keys m = none →
      fmFind ks.committed_offset_reads m = none →
      Kafka.handle ks ⟨src, none, some m, .ReadOk v⟩
        = ([], .error "Unhandled ReadOk message")) ∧
    (fmFind ks.offset_updates m = none →
      Kafka.handle ks ⟨src, none, some m, .CasOk⟩
        = ([], .error "Unhandled CasOk message")) ∧
    (fmFind ks.send_msg_keys m = none → fmFind ks.commit_msg_keys m = none →
      Kafka.handle ks ⟨src, none, some m, .WriteOk⟩
        = ([], .error "Unhandled WriteOk message")) := by
  refine ⟨fun h1 h2 => ?_, fun h1 h2 h3 => ?_, fun h1 => ?_, fun h1 h2 => ?_⟩
  · simp [GCounter.gHandle, h1, h2]
  · simp [Kafka.handle, h1, h2, h3]
  · simp [Kafka.handle, h1]
  · simp [Kafka.handle, h1, h2]

/-- Closed witness for `C10_unmatched_kv_reply_fatal`: fresh handlers with no
outstanding correlation entries. -/
theorem C10_unmatched_kv_reply_fatal_witness :
    GCounter.gHandle (GCounter.GState.empty 1) ⟨"c", none, some 5, .ReadOk 7⟩ 0
        = ([], .error "msg_id is missing in deltas") ∧
    Kafka.handle (Kafka.KafkaLog.empty 2) ⟨"c", none, some 5, .ReadOk 7⟩
        = ([], .error "Unhandled ReadOk message") ∧
    Kafka.handle (Kafka.KafkaLog.empty 2) ⟨"c", none, some 5, .CasOk⟩
        = ([], .error "Unhandled CasOk message") ∧
    Kafka.handle (Kafka.KafkaLog.empty 2) ⟨"c", none, some 5, .WriteOk⟩
        = ([], .error "Unhandled WriteOk message") := by
  have h := C10_unmatched_kv_reply_fatal (GCounter.GState.empty 1)
    (Kafka.KafkaLog.empty 2) 5 7 0 "c"
  exact ⟨h.1 rfl rfl, h.2.1 rfl rfl rfl, h.2.2.1 rfl, h.2.2.2 rfl rfl⟩

/-- **C8.** Every outbound envelope emitted by a node (via `reply` or
`send_to`, including the `init_ok` reply) carries `src` equal to the node's
own id and a `msg_id` that is positive and strictly greater than every
previously emitted one: the counter starts at 1, the ids are exactly
`1, 2, 3, …`, and no id is reused. -/
theorem C8_outbound_envelope_ids (first : Runtime.Message Runtime.InitPayload)
    (nid : String) (nids : List String) (n0 : Runtime.Inner)
    (initOk : Runtime.Message Runtime.InitPayload)
    (ops : List (Runtime.Op Runtime.InitPayload))
    (hp : first.body.payload = .Init nid nids)
    (hn : Runtime.nodeNew first = .ok (n0, initOk)) :
    (∀ m ∈ initOk :: (Runtime.runOps n0 ops).2, m.src = nid) ∧
    (initOk :: (Runtime.runOps n0 ops).2).map (fun m => m.body.id)
      = (List.range' 1 (ops.length + 1)).map some ∧
    (∀ m ∈ initOk :: (Runtime.runOps n0 ops).2, ∃ j, m.body.id = some j ∧ 0 < j) ∧
    (initOk :: (Runtime.runOps n0 ops).2).Pairwise
      (fun a b => ∀ i j, a.body.id = some i → b.body.id = some j → i < j) := by
  simp only [Runtime.nodeNew, hp, Runtime.newMsgId, Except.ok.injEq, Prod.mk.injEq] at hn
  obtain ⟨rfl, rfl⟩ := hn
  have h := runOps_spec ops { id := nid, node_ids := nids, msg_id := 2 }
  have hmap : ((⟨nid, first.src, ⟨some 1, first.body.id, .InitOk⟩⟩ :
        Runtime.Message Runtime.InitPayload) ::
          (Runtime.runOps { id := nid, node_ids := nids, msg_id := 2 } ops).2).map
      (fun m => m.body.id) = (List.range' 1 (ops.length + 1)).map some := by
    rw [List.map_cons, h.2.1, List.range'_succ 1 ops.length 1, List.map_cons]
  have hr : ((List.range' 1 (ops.length + 1)).map some).Pairwise
      (fun x y => ∀ i j, x = some i → y = some j → i < j) := by
    refine List.Pairwise.map some ?_ (pairwise_lt_range' (ops.length + 1) 1)
    intro a b hab i j hi hj
    injection hi with h1
    injection hj with h2
    omega
  refine ⟨?_, hmap, ?_, ?_⟩
  · intro m hm
    rcases List.mem_cons.1 hm with rfl | hm
    · rfl
    · exact h.2.2 m hm
  · intro m hm
    have hmem : m.body.id ∈ ((⟨nid, first.src, ⟨some 1, first.body.id, .InitOk⟩⟩ :
        Runtime.Message Runtime.InitPayload) ::
          (Runtime.runOps { id := nid, node_ids := nids, msg_id := 2 } ops).2).map
        (fun m => m.body.id) := List.mem_map_of_mem _ hm
    rw [hmap] at hmem
    obtain ⟨j, hj, hjeq⟩ := List.mem_map.1 hmem
    exact ⟨j, hjeq.symm, by have := List.mem_range'_1.1 hj; omega⟩
  · exact List.pairwise_map.1 (hmap ▸ hr)

/-- Closed witness for `C8_outbound_envelope_ids`: the init handshake of the
specification's scenario followed by one `send_to`. -/
theorem C8_outbound_envelope_ids_witness :
    (∀ m ∈ (⟨"n1", "c0", ⟨some 1, some 1, .InitOk⟩⟩ : Runtime.Message Runtime.InitPayload) ::
        (Runtime.runOps ⟨"n1", ["n1"], 2⟩ [Runtime.Op.sendTo "lin-kv" .InitOk]).2,
      m.src = "n1") ∧
    ((⟨"n1", "c0", ⟨some 1, some 1, .InitOk⟩⟩ : Runtime.Message Runtime.InitPayload) ::
        (Runtime.runOps ⟨"n1", ["n1"], 2⟩ [Runtime.Op.sendTo "lin-kv" .InitOk]).2).map
        (fun m => m.body.id)
      = (List.range' 1 ([Runtime.Op.sendTo "lin-kv"
          Runtime.InitPayload.InitOk].length + 1)).map some ∧
    (∀ m ∈ (⟨"n1", "c0", ⟨some 1, some 1, .InitOk⟩⟩ : Runtime.Message Runtime.InitPayload) ::
        (Runtime.runOps ⟨"n1", ["n1"], 2⟩ [Runtime.Op.sendTo "lin-kv" .InitOk]).2,
      ∃ j, m.body.id = some j ∧ 0 < j) ∧
    ((⟨"n1", "c0", ⟨some 1, some 1, .InitOk⟩⟩ : Runtime.Message Runtime.InitPayload) ::
        (Runtime.runOps ⟨"n1", ["n1"], 2⟩ [Runtime.Op.sendTo "lin-kv" .InitOk]).2).Pairwise
      (fun a b => ∀ i j, a.body.id = some i → b.body.id = some j → i < j) :=
  C8_outbound_envelope_ids ⟨"c0", "n1", ⟨some 1, none, .Init "n1" ["n1"]⟩⟩
    "n1" ["n1"] ⟨"n1", ["n1"], 2⟩ ⟨"n1", "c0", ⟨some 1, some 1, .InitOk⟩⟩
    [Runtime.Op.sendTo "lin-kv" .InitOk] rfl rfl

/-- **C2 (counterexample).** The claim says handling `gossip{have}` sends no
reply; in fact the handler acknowledges with `gossip_ok{have}` — the output
list of the gossip step is nonempty. -/
theorem C2_gossip_counterexample :
    bHandle "n1" (BState.init ["n1", "n2"]) ⟨"n2", .Gossip {5}⟩
      = .ok ({ messages := {5}, topology := [], neighbours := []
               others_know := [("n1", ∅), ("n2", {5})] },
             [⟨"n2", .GossipOk {5}⟩]) ∧
    ([⟨"n2", .GossipOk {5}⟩] : List BOut) ≠ [] := by
  constructor
  · decide
  · decide

/-- **C2 (amended).** Handling `gossip{have}` from a known peer merges `have`
into `messages` and into `others_know[src]`, and sends exactly one outbound
message: the acknowledgement `gossip_ok{have}` back to the peer (the claim's
"no reply" part is wrong). -/
theorem C2_gossip_merges_and_acks (selfId : String) (s : BState) (src : String)
    (hav known : Finset Int) (h : fmFind s.others_know src = some known) :
    bHandle selfId s ⟨src, .Gossip hav⟩ =
      .ok ({ messages := s.messages ∪ hav
             topology := s.topology
             neighbours := s.neighbours
             others_know := fmInsert s.others_know src (known ∪ hav) },
           [⟨src, .GossipOk hav⟩]) := by
  simp [bHandle, h]

/-- Closed witness for `C2_gossip_merges_and_acks`. -/
theorem C2_gossip_merges_and_acks_witness :
    bHandle "n1" (BState.init ["n1", "n2"]) ⟨"n2", .Gossip {5}⟩ =
      .ok ({ messages := (BState.init ["n1", "n2"]).messages ∪ {5}
             topology := (BState.init ["n1", "n2"]).topology
             neighbours := (BState.init ["n1", "n2"]).neighbours
             others_know := fmInsert (BState.init ["n1", "n2"]).others_know "n2"
               (∅ ∪ {5}) },
           [⟨"n2", .GossipOk {5}⟩]) :=
  C2_gossip_merges_and_acks "n1" (BState.init ["n1", "n2"]) "n2" {5} ∅ (by decide)

/-- **C3 (counterexample).** The claim asserts that from every reachable
state, every step keeps `others_know[p] ⊆ messages` and only grows
`others_know[p]`; but a `gossip_ok{have}` step extends `others_know[src]`
without touching `messages`, breaking the subset invariant already one step
from the initial state. -/
theorem C3_invariant_counterexample :
    BReachable "n1" ["n1", "n2"] (BState.init ["n1", "n2"]) ∧
    bStep "n1" (BState.init ["n1", "n2"]) (.msg ⟨"n2", .GossipOk {1}⟩)
      = .ok ({ messages := ∅, topology := [], neighbours := []
               others_know := [("n1", ∅), ("n2", {1})] }, []) ∧
    ¬ (oKnow { messages := ∅, topology := [], neighbours := []
               others_know := [("n1", ∅), ("n2", {1})] } "n2"
        ⊆ (∅ : Finset Int)) :=
  ⟨BReachable.init, by decide, by decide⟩

/-- **C3 (amended).** For every state and every successful step of the
broadcast handler: `messages` only grows; `others_know[p]` only grows
provided the step is not a `read_ok` message (a `read_ok` *replaces*
`others_know[src]`); and `others_know[p] ⊆ messages` is preserved provided
the step is neither a `read_ok` nor a `gossip_ok` message (both can install
elements of `others_know[src]` that are absent from `messages`). -/
theorem C3_monotonicity_amended (selfId : String) (s s' : BState) (st : BStep)
    (outs : List BOut) (hstep : bStep selfId s st = .ok (s', outs)) :
    s.messages ⊆ s'.messages ∧
    ((∀ src ms, st ≠ .msg ⟨src, .ReadOk ms⟩) → ∀ p, oKnow s p ⊆ oKnow s' p) ∧
    ((∀ p, oKnow s p ⊆ s.messages) →
      (∀ src ms, st ≠ .msg ⟨src, .ReadOk ms⟩) →
      (∀ src hv, st ≠ .msg ⟨src, .GossipOk hv⟩) →
      ∀ p, oKnow s' p ⊆ s'.messages) := by
  cases st with
  | cmd c =>
      simp only [bStep, bHandleCommand, Except.ok.injEq, Prod.mk.injEq] at hstep
      obtain ⟨rfl, -⟩ := hstep
      exact ⟨subset_rfl, fun _ p => subset_rfl, fun hinv _ _ p => hinv p⟩
  | msg m =>
      obtain ⟨src, pl⟩ := m
      cases pl with
      | Broadcast x =>
          simp only [bStep, bHandle, Except.ok.injEq, Prod.mk.injEq] at hstep
          obtain ⟨rfl, -⟩ := hstep
          refine ⟨Finset.subset_insert x s.messages, fun _ p => subset_rfl, ?_⟩
          intro hinv _ _ p
          exact (hinv p).trans (Finset.subset_insert x s.messages)
      | Gossip hav =>
          simp only [bStep, bHandle] at hstep
          cases hf : fmFind s.others_know src with
          | none => rw [hf] at hstep; cases hstep
          | some known =>
              rw [hf] at hstep
              simp only [Except.ok.injEq, Prod.mk.injEq] at hstep
              obtain ⟨rfl, -⟩ := hstep
              refine ⟨Finset.subset_union_left, ?_, ?_⟩
              · intro _ p
                simp only [oKnow, fmFind_fmInsert]
                by_cases hp : src = p
                · subst hp
                  rw [if_pos rfl, hf]
                  simp only [Option.getD_some]
                  exact Finset.subset_union_left
                · rw [if_neg hp]
              · intro hinv _ _ p
                simp only [oKnow, fmFind_fmInsert]
                by_cases hp : src = p
                · subst hp
                  rw [if_pos rfl]
                  simp only [Option.getD_some]
                  refine Finset.union_subset_union_left ?_
                  have h2 : known = oKnow s src := by simp [oKnow, hf]
                  rw [h2]
                  exact hinv src
                · rw [if_neg hp]
                  exact (hinv p).trans Finset.subset_union_left
      | Read =>
          simp only [bStep, bHandle, Except.ok.injEq, Prod.mk.injEq] at hstep
          obtain ⟨rfl, -⟩ := hstep
          exact ⟨subset_rfl, fun _ p => subset_rfl, fun hinv _ _ p => hinv p⟩
      | ReadOk ms =>
          simp only [bStep, bHandle, Except.ok.injEq, Prod.mk.injEq] at hstep
          obtain ⟨rfl, -⟩ := hstep
          refine ⟨subset_rfl, ?_, ?_⟩
          · intro hne
            exact absurd rfl (hne src ms)
          · intro _ hne _
            exact absurd rfl (hne src ms)
      | Topology topo =>
          simp only [bStep, bHandle] at hstep
          cases hf : fmFind topo selfId with
          | none => rw [hf] at hstep; cases hstep
          | some ns =>
              rw [hf] at hstep
              simp only [Except.ok.injEq, Prod.mk.injEq] at hstep
              obtain ⟨rfl, -⟩ := hstep
              exact ⟨subset_rfl, fun _ p => subset_rfl, fun hinv _ _ p => hinv p⟩
      | BroadcastOk =>
          simp only [bStep, bHandle, Except.ok.injEq, Prod.mk.injEq] at hstep
          obtain ⟨rfl, -⟩ := hstep
          exact ⟨subset_rfl, fun _ p => subset_rfl, fun hinv _ _ p => hinv p⟩
      | TopologyOk =>
          simp only [bStep, bHandle, Except.ok.injEq, Prod.mk.injEq] at hstep
          obtain ⟨rfl, -⟩ := hstep
          exact ⟨subset_rfl, fun _ p => subset_rfl, fun hinv _ _ p => hinv p⟩
      | GossipOk hav =>
          simp only [bStep, bHandle] at hstep
          cases hf : fmFind s.others_know src with
          | none => rw [hf] at hstep; cases hstep
          | some known =>
              rw [hf] at hstep
              simp only [Except.ok.injEq, Prod.mk.injEq] at hstep
              obtain ⟨rfl, -⟩ := hstep
              refine ⟨subset_rfl, ?_, ?_⟩
              · intro _ p
                simp only [oKnow, fmFind_fmInsert]
                by_cases hp : src = p
                · subst hp
                  rw [if_pos rfl, hf]
                  simp only [Option.getD_some]
                  exact Finset.subset_union_left
                · rw [if_neg hp]
              · intro _ _ hne
                exact absurd rfl (hne src hav)

/-- Closed witness for `C3_monotonicity_amended`: a `broadcast{7}` step on a
small concrete state. -/
theorem C3_monotonicity_amended_witness :
    ((⟨{3}, [], [], [("n1", ∅), ("n2", ∅)]⟩ : BState).messages ⊆
      (⟨{7, 3}, [], [], [("n1", ∅), ("n2", ∅)]⟩ : BState).messages) ∧
    ((∀ src ms, BStep.msg ⟨"c0", .Broadcast 7⟩ ≠ .msg ⟨src, .ReadOk ms⟩) → ∀ p,
        oKnow ⟨{3}, [], [], [("n1", ∅), ("n2", ∅)]⟩ p ⊆
        oKnow ⟨{7, 3}, [], [], [("n1", ∅), ("n2", ∅)]⟩ p) ∧
    ((∀ p, oKnow ⟨{3}, [], [], [("n1", ∅), ("n2", ∅)]⟩ p ⊆
        (⟨{3}, [], [], [("n1", ∅), ("n2", ∅)]⟩ : BState).messages) →
      (∀ src ms, BStep.msg ⟨"c0", .Broadcast 7⟩ ≠ .msg ⟨src, .ReadOk ms⟩) →
      (∀ src hv, BStep.msg ⟨"c0", .Broadcast 7⟩ ≠ .msg ⟨src, .GossipOk hv⟩) →
      ∀ p, oKnow ⟨{7, 3}, [], [], [("n1", ∅), ("n2", ∅)]⟩ p ⊆
        (⟨{7, 3}, [], [], [("n1", ∅), ("n2", ∅)]⟩ : BState).messages) :=
  C3_monotonicity_amended "n1" _ _ (.msg ⟨"c0", .Broadcast 7⟩)
    [⟨"c0", .BroadcastOk⟩] (by decide)

/-- **C1 (counterexample).** The claim says that after a CAS failure with
code 22 the next KV request for that Send is a *read* of `offset-{key}`.
In a concrete run (`send`, `read_ok{2}`, `error 22`), the request emitted
after the error is a `cas from=3 to=4` on `offset-k` — not a read. -/
theorem C1_cas_retry_counterexample :
    (Kafka.runKafka (Kafka.KafkaLog.empty 2)
      [⟨"c1", some 4, none, .Send "k" 9⟩,
       ⟨LIN_KV_SERVICE_ID, none, some 2, .ReadOk 2⟩,
       ⟨LIN_KV_SERVICE_ID, none, some 3, .Error 22 "precondition failed"⟩]).2 =
      [⟨LIN_KV_SERVICE_ID, 2, none, .kv (.Read (Kafka.offsetKey "k"))⟩,
       ⟨LIN_KV_SERVICE_ID, 3, none, .kv (.Cas (Kafka.offsetKey "k") 2 3 false)⟩,
       ⟨LIN_KV_SERVICE_ID, 4, none, .kv (.Cas (Kafka.offsetKey "k") 3 4 false)⟩] ∧
    (Kafka.OutPayload.kv (.Cas (Kafka.offsetKey "k") 3 4 false)
      ≠ .kv (.Read (Kafka.offsetKey "k"))) := by
  exact ⟨rfl, by decide⟩

/-- **C1 (amended).** When the offset-incrementing CAS for an in-flight Send
fails with code 22, the handler does *not* retry from the read step: it
immediately issues another CAS on the same `offset-{key}` with
`from = v` and `to = v + 1`, where `v` is the failed attempt's `to` value,
re-keying the in-flight entries under the new request id.  The retry loop is
CAS-only; no read of `offset-{key}` is re-issued. -/
theorem C1_cas_retry_is_blind_cas (s : Kafka.KafkaLog) (m v : Nat)
    (okey text src : String) (entry : Kafka.SendEntry)
    (hu : fmFind s.offset_updates m = some (okey, v))
    (hs : fmFind s.send_msg_keys m = some entry) :
    Kafka.handle s ⟨src, none, some m, .Error 22 text⟩ =
      ([⟨LIN_KV_SERVICE_ID, s.nextId, none, .kv (.Cas okey v (v + 1) false)⟩],
       .ok { s with
             nextId := s.nextId + 1
             offset_updates := fmInsert (fmErase s.offset_updates m) s.nextId
               (okey, v + 1)
             send_msg_keys := fmInsert (fmErase s.send_msg_keys m) s.nextId entry }) := by
  simp [Kafka.handle, ERROR_KEY_DOES_NOT_EXIST, ERROR_PRECONDITION_FAILED, hu, hs,
    Kafka.KafkaLog.sendToLinKv]

/-- Closed witness for `C1_cas_retry_is_blind_cas`. -/
theorem C1_cas_retry_is_blind_cas_witness :
    Kafka.handle
      { Kafka.KafkaLog.empty 7 with
        offset_updates := [(5, ("offset-k", 3))]
        send_msg_keys := [(5, ⟨4, "c1", "k", 0, 9⟩)] }
      ⟨"lin-kv", none, some 5, .Error 22 "precondition failed"⟩ =
      ([⟨LIN_KV_SERVICE_ID, 7, none, .kv (.Cas "offset-k" 3 4 false)⟩],
       .ok { Kafka.KafkaLog.empty 7 with
             nextId := 8
             offset_updates := fmInsert (fmErase [(5, ("offset-k", 3))] 5) 7
               ("offset-k", 4)
             send_msg_keys := fmInsert (fmErase [(5, (⟨4, "c1", "k", 0, 9⟩ :
               Kafka.SendEntry))] 5) 7 ⟨4, "c1", "k", 0, 9⟩ }) :=
  C1_cas_retry_is_blind_cas _ 5 3 "offset-k" "precondition failed" "lin-kv"
    ⟨4, "c1", "k", 0, 9⟩ rfl rfl

/-- **C4 (counterexample).** The claim says that on a KV error with a code
other than 20 and 22 both handlers drop the correlation entry and return
success.  Concretely, on error code 13 the g-counter handler returns success
*without* removing the entry keyed by `in_reply_to` (the entry `5 ↦ 7`
survives), and the kafka handler does not return success at all — it fails,
aborting the process. -/
theorem C4_other_error_counterexample :
    GCounter.gHandle ⟨6, [], [(5, 7)]⟩ ⟨"seq-kv", none, some 5, .Error 13 "boom"⟩ 0
      = ([], .ok ⟨6, [], [(5, 7)]⟩) ∧
    fmFind ([(5, 7)] : List (Nat × Nat)) 5 = some 7 ∧
    Kafka.handle (Kafka.KafkaLog.empty 2) ⟨"lin-kv", none, some 5, .Error 13 "boom"⟩
      = ([], .error "Uncaught Error message") := by
  exact ⟨rfl, rfl, rfl⟩

/-- **C4 (amended).** For a KV `error` reply with a code that is neither 20
nor 22: the g-counter handler only logs it — it sends no reply, keeps its
correlation maps (and whole state) unchanged, and returns success; the kafka
handler sends no reply and returns an error (`bail!`), which aborts the
process. -/
theorem C4_other_error_behaviour (gs : GCounter.GState) (ks : Kafka.KafkaLog)
    (code : Nat) (text src : String) (irt : Option Nat) (m now : Nat)
    (h20 : code ≠ 20) (h22 : code ≠ 22) :
    GCounter.gHandle gs ⟨src, none, irt, .Error code text⟩ now = ([], .ok gs) ∧
    Kafka.handle ks ⟨src, none, some m, .Error code text⟩
      = ([], .error "Uncaught Error message") := by
  constructor
  · simp [GCounter.gHandle, ERROR_PRECONDITION_FAILED, h22]
  · simp [Kafka.handle, ERROR_KEY_DOES_NOT_EXIST, ERROR_PRECONDITION_FAILED, h20, h22]

/-- Closed witness for `C4_other_error_behaviour`. -/
theorem C4_other_error_behaviour_witness :
    GCounter.gHandle (GCounter.GState.empty 3) ⟨"seq-kv", none, some 2, .Error 14 "x"⟩ 0
      = ([], .ok (GCounter.GState.empty 3)) ∧
    Kafka.handle (Kafka.KafkaLog.empty 2) ⟨"lin-kv", none, some 2, .Error 14 "x"⟩
      = ([], .error "Uncaught Error message") :=
  C4_other_error_behaviour (GCounter.GState.empty 3) (Kafka.KafkaLog.empty 2)
    14 "x" "seq-kv" (some 2) 2 0 (by decide) (by decide)

/-- **C5 (counterexample).** The claim says a ListCommittedOffsets request
receives at most one reply.  In a run where both requested keys are missing
(both reads answered by error 20), the client receives *two*
`list_committed_offsets_ok{offsets={}}` replies. -/
theorem C5_multiple_replies_counterexample :
    ((Kafka.runKafka (Kafka.KafkaLog.empty 2)
      [⟨"c1", some 9, none, .ListCommittedOffsets ["k1", "k2"]⟩,
       ⟨LIN_KV_SERVICE_ID, none, some 2, .Error 20 "key does not exist"⟩,
       ⟨LIN_KV_SERVICE_ID, none, some 3, .Error 20 "key does not exist"⟩]).2.filter
        (fun o => decide (o.dst = "c1") && decide (o.in_reply_to = some 9))).length
      = 2 ∧
    ¬ (2 ≤ 1) := by
  exact ⟨rfl, by decide⟩

/-- **C5 (amended).** When a `committed-offset-{k}` read issued for a
ListCommittedOffsets request is answered by error 20 (key-does-not-exist),
the handler immediately sends exactly one
`list_committed_offsets_ok{offsets={}}` reply to the originating client and
drops that read's correlation entry.  Because this happens once per missing
key, a request whose reads hit several key-does-not-exist errors receives
several replies — the "at most one reply per request" part of the claim does
not hold. -/
theorem C5_error20_immediate_empty_reply (s : Kafka.KafkaLog) (m : Nat)
    (entry : Kafka.CommitOffsetEntry) (text src : String)
    (h1 : fmFind s.offset_reads m = none)
    (h2 : fmFind s.poll_msg_keys m = none)
    (h3 : fmFind s.committed_offset_reads m = some entry) :
    Kafka.handle s ⟨src, none, some m, .Error 20 text⟩ =
      ([⟨entry.orig_msg_src, s.nextId, some entry.orig_msg_id,
         .client (.ListCommittedOffsetsOk [])⟩],
       .ok { s with
             nextId := s.nextId + 1
             committed_offset_reads := fmErase s.committed_offset_reads m }) := by
  simp [Kafka.handle, ERROR_KEY_DOES_NOT_EXIST, h1, h2, h3, Kafka.KafkaLog.replyTo]

/-- Closed witness for `C5_error20_immediate_empty_reply`. -/
theorem C5_error20_immediate_empty_reply_witness :
    Kafka.handle
      { Kafka.KafkaLog.empty 4 with committed_offset_reads := [(2, ⟨9, "c1", "k1", 2⟩)] }
      ⟨"lin-kv", none, some 2, .Error 20 "key does not exist"⟩ =
      ([⟨(⟨9, "c1", "k1", 2⟩ : Kafka.CommitOffsetEntry).orig_msg_src, 4,
         some (⟨9, "c1", "k1", 2⟩ : Kafka.CommitOffsetEntry).orig_msg_id,
         .client (.ListCommittedOffsetsOk [])⟩],
       .ok { { Kafka.KafkaLog.empty 4 with
               committed_offset_reads := [(2, ⟨9, "c1", "k1", 2⟩)] } with
             nextId := 5
             committed_offset_reads := fmErase [(2, ⟨9, "c1", "k1", 2⟩)] 2 }) :=
  C5_error20_immediate_empty_reply _ 2 ⟨9, "c1", "k1", 2⟩ "key does not exist"
    "lin-kv" rfl rfl rfl

/-! ## Lemmas towards the poll-window property (C6) -/

namespace Kafka

theorem pollsOf_cons (m : KMsg) (rest : List KMsg) :
    pollsOf (m :: rest) = pollsOf [m] ++ pollsOf rest := by
  cases hp : m.payload <;> cases hb : m.body_id <;> simp [pollsOf, hp, hb]

theorem pollsOf_mem {trace : List KMsg} {q : KMsg} {R : List (String × Nat)} {i : Nat}
    (hq : q ∈ trace) (hp : q.payload = .Poll R) (hb : q.body_id = some i) :
    (aggKey q.src i, R) ∈ pollsOf trace := by
  induction trace with
  | nil => simp at hq
  | cons m rest ih =>
      rw [pollsOf_cons]
      rcases List.mem_cons.1 hq with rfl | hq2
      · exact List.mem_append_left _ (by simp [pollsOf, hp, hb])
      · exact List.mem_append_right _ (ih hq2)

theorem newEntriesFor_keys (src : String) (id : Nat)
    (offsAll : List (String × Nat)) (key : String) :
    ∀ (count off n : Nat),
      (newEntriesFor src id offsAll key off count n).map Prod.fst
        = List.range' n count := by
  intro count
  induction count with
  | zero => intro off n; rfl
  | succ c ih =>
      intro off n
      rw [newEntriesFor, List.map_cons, ih, List.range'_succ n c 1]

theorem newEntriesFor_length (src : String) (id : Nat)
    (offsAll : List (String × Nat)) (key : String) :
    ∀ (count off n : Nat),
      (newEntriesFor src id offsAll key off count n).length = count := by
  intro count
  induction count with
  | zero => intro off n; rfl
  | succ c ih => intro off n; rw [newEntriesFor, List.length_cons, ih]

theorem newEntriesFor_mem {src : String} {id : Nat}
    {offsAll : List (String × Nat)} {key : String} :
    ∀ {count off n : Nat} {x : Nat × PollEntry},
      x ∈ newEntriesFor src id offsAll key off count n →
      x.2.orig_msg_src = src ∧ x.2.orig_msg_id = id ∧
      x.2.requested_key_offsets = offsAll ∧ x.2.key = key ∧ off ≤ x.2.offset := by
  intro count
  induction count with
  | zero => intro off n x hx; simp [newEntriesFor] at hx
  | succ c ih =>
      intro off n x hx
      rw [newEntriesFor] at hx
      rcases List.mem_cons.1 hx with h | hx2
      · subst h
        exact ⟨rfl, rfl, rfl, rfl, le_rfl⟩
      · obtain ⟨h1, h2, h3, h4, h5⟩ := ih hx2
        exact ⟨h1, h2, h3, h4, le_trans (Nat.le_succ off) h5⟩

theorem newEntries_keys (src : String) (id : Nat) (offsAll : List (String × Nat)) :
    ∀ (pending : List (String × Nat)) (n : Nat),
      (newEntries src id offsAll pending n).map Prod.fst
        = List.range' n (NUM_POLLED_MESSAGES * pending.length) := by
  intro pending
  induction pending with
  | nil => intro n; simp [newEntries]
  | cons hd t ih =>
      intro n
      obtain ⟨key, off⟩ := hd
      rw [newEntries, List.map_append, newEntriesFor_keys, ih]
      have := List.range'_append n NUM_POLLED_MESSAGES
        (NUM_POLLED_MESSAGES * t.length) 1
      simp only [Nat.one_mul] at this
      rw [this]
      congr 1

theorem newEntries_mem {src : String} {id : Nat} {offsAll : List (String × Nat)} :
    ∀ {pending : List (String × Nat)} {n : Nat} {x : Nat × PollEntry},
      x ∈ newEntries src id offsAll pending n →
      x.2.aggOf = aggKey src id ∧ x.2.requested_key_offsets = offsAll ∧
      ∃ poff, (x.2.key, poff) ∈ pending ∧ coerceOff poff ≤ x.2.offset := by
  intro pending
  induction pending with
  | nil => intro n x hx; simp [newEntries] at hx
  | cons hd t ih =>
      intro n x hx
      obtain ⟨key, off⟩ := hd
      rw [newEntries] at hx
      rcases List.mem_append.1 hx with hx2 | hx2
      · obtain ⟨h1, h2, h3, h4, h5⟩ := newEntriesFor_mem hx2
        refine ⟨?_, h3, off, ?_, ?_⟩
        · rw [PollEntry.aggOf, h1, h2]
        · rw [h4]
          exact List.mem_cons_self _ _
        · exact h5
      · obtain ⟨h1, h2, poff, hmem, hle⟩ := ih hx2
        exact ⟨h1, h2, poff, List.mem_cons_of_mem _ hmem, hle⟩

theorem countE_append (l₁ l₂ : List (Nat × PollEntry)) (K k : String) :
    countE (l₁ ++ l₂) K k = countE l₁ K k + countE l₂ K k :=
  List.countP_append _ _ _

theorem countE_eq_zero {l : List (Nat × PollEntry)} {K k : String}
    (h : ∀ x ∈ l, ¬(x.2.aggOf = K ∧ x.2.key = k)) : countE l K k = 0 := by
  rw [countE, List.countP_eq_zero]
  intro a ha
  simp only [Bool.and_eq_true, decide_eq_true_eq, not_and]
  intro h1 h2
  exact h a ha ⟨h1, h2⟩

theorem newEntriesFor_countE_le {src : String} {id : Nat}
    {offsAll : List (String × Nat)} {key K k : String} {count off n : Nat} :
    countE (newEntriesFor src id offsAll key off count n) K k ≤ count := by
  calc countE (newEntriesFor src id offsAll key off count n) K k
      ≤ (newEntriesFor src id offsAll key off count n).length :=
        List.countP_le_length _
    _ = count := newEntriesFor_length src id offsAll key count off n

theorem newEntries_countE_le {src : String} {id : Nat}
    {offsAll : List (String × Nat)} (K k : String) :
    ∀ {pending : List (String × Nat)} {n : Nat}, (pending.map Prod.fst).Nodup →
      countE (newEntries src id offsAll pending n) K k ≤ NUM_POLLED_MESSAGES := by
  intro pending
  induction pending with
  | nil => intro n _; simp [newEntries, countE]
  | cons hd t ih =>
      intro n hnd
      obtain ⟨key, off⟩ := hd
      simp only [List.map_cons, List.nodup_cons] at hnd
      rw [newEntries, countE_append]
      by_cases hk : k = key
      · subst hk
        have h2 : countE (newEntries src id offsAll t (n + NUM_POLLED_MESSAGES)) K k
            = 0 := by
          apply countE_eq_zero
          intro x hx hc
          obtain ⟨-, -, poff, hmem, -⟩ := newEntries_mem hx
          exact hnd.1 (hc.2 ▸ List.mem_map_of_mem Prod.fst hmem)
        rw [h2, Nat.add_zero]
        exact newEntriesFor_countE_le
      · have h1 : countE (newEntriesFor src id offsAll key (coerceOff off)
            NUM_POLLED_MESSAGES n) K k = 0 := by
          apply countE_eq_zero
          intro x hx hc
          obtain ⟨-, -, -, h4, -⟩ := newEntriesFor_mem hx
          exact hk (hc.2 ▸ h4 ▸ rfl)
        rw [h1, Nat.zero_add]
        exact ih hnd.2

theorem newEntries_countE_ne {src : String} {id : Nat}
    {offsAll : List (String × Nat)} {K k : String} (h : K ≠ aggKey src id)
    {pending : List (String × Nat)} {n : Nat} :
    countE (newEntries src id offsAll pending n) K k = 0 := by
  apply countE_eq_zero
  intro x hx hc
  exact h (hc.1 ▸ (newEntries_mem hx).1)

theorem pollReadsFor_spec (src : String) (id : Nat) (offsAll : List (String × Nat))
    (key : String) :
    ∀ (count off : Nat) (s : KafkaLog), (∀ e ∈ s.poll_msg_keys, e.1 < s.nextId) →
      (pollReadsFor src id offsAll key off count s).1 =
        { s with nextId := s.nextId + count
                 poll_msg_keys := s.poll_msg_keys ++
                   newEntriesFor src id offsAll key off count s.nextId } ∧
      ∀ o ∈ (pollReadsFor src id offsAll key off count s).2, ∃ p, o.payload = .kv p := by
  intro count
  induction count with
  | zero =>
      intro off s hb
      refine ⟨?_, ?_⟩
      · simp [pollReadsFor, newEntriesFor]
      · intro o ho
        simp [pollReadsFor] at ho
  | succ c ih =>
      intro off s hb
      obtain ⟨nid, smk, ore, oup, pmk, pom, cmk, cor, cow, lco⟩ := s
      have hfresh : nid ∉ pmk.map Prod.fst := by
        intro hmem
        obtain ⟨x, hx, hxe⟩ := List.mem_map.1 hmem
        exact absurd (hxe ▸ hb x hx) (lt_irrefl _)
      have hins : fmInsert pmk nid (⟨id, src, offsAll, key, off⟩ : PollEntry)
          = pmk ++ [(nid, ⟨id, src, offsAll, key, off⟩)] :=
        fmInsert_of_not_mem _ hfresh
      have hb2 : ∀ e ∈ pmk ++ [(nid, (⟨id, src, offsAll, key, off⟩ : PollEntry))],
          e.1 < nid + 1 := by
        intro e he
        rcases List.mem_append.1 he with he | he
        · exact Nat.lt_succ_of_lt (hb e he)
        · rw [List.mem_singleton] at he
          subst he
          exact Nat.lt_succ_self nid
      obtain ⟨ih1, ih2⟩ := ih (off + 1)
        ⟨nid + 1, smk, ore, oup,
         pmk ++ [(nid, ⟨id, src, offsAll, key, off⟩)], pom, cmk, cor, cow, lco⟩ hb2
      constructor
      · simp only [pollReadsFor, KafkaLog.sendToLinKv, hins]
        rw [ih1]
        rw [newEntriesFor]
        simp only [KafkaLog.mk.injEq, List.append_assoc, List.singleton_append,
          and_true, true_and]
        omega
      · intro o ho
        simp only [pollReadsFor, KafkaLog.sendToLinKv, hins, List.mem_cons] at ho
        rcases ho with rfl | ho
        · exact ⟨_, rfl⟩
        · exact ih2 o ho

theorem pollReads_spec (src : String) (id : Nat) (offsAll : List (String × Nat)) :
    ∀ (pending : List (String × Nat)) (s : KafkaLog),
      (∀ e ∈ s.poll_msg_keys, e.1 < s.nextId) →
      (pollReads src id offsAll pending s).1 =
        { s with nextId := s.nextId + NUM_POLLED_MESSAGES * pending.length
                 poll_msg_keys := s.poll_msg_keys ++
                   newEntries src id offsAll pending s.nextId } ∧
      ∀ o ∈ (pollReads src id offsAll pending s).2, ∃ p, o.payload = .kv p := by
  intro pending
  induction pending with
  | nil =>
      intro s hb
      constructor
      · simp [pollReads, newEntries]
      · intro o ho
        simp [pollReads] at ho
  | cons hd t ih =>
      intro s hb
      obtain ⟨key, off⟩ := hd
      obtain ⟨nid, smk, ore, oup, pmk, pom, cmk, cor, cow, lco⟩ := s
      obtain ⟨hf1, hf2⟩ := pollReadsFor_spec src id offsAll key NUM_POLLED_MESSAGES
        (if off = 0 then 1 else off)
        ⟨nid, smk, ore, oup, pmk, pom, cmk, cor, cow, lco⟩ hb
      have hb1 : ∀ e ∈ pmk ++ newEntriesFor src id offsAll key
          (if off = 0 then 1 else off) NUM_POLLED_MESSAGES nid,
          e.1 < nid + NUM_POLLED_MESSAGES := by
        intro e he
        rcases List.mem_append.1 he with he | he
        · exact Nat.lt_of_lt_of_le (hb e he) (Nat.le_add_right _ _)
        · have hk : e.1 ∈ (newEntriesFor src id offsAll key
              (if off = 0 then 1 else off) NUM_POLLED_MESSAGES nid).map Prod.fst :=
            List.mem_map_of_mem Prod.fst he
          rw [newEntriesFor_keys] at hk
          have := List.mem_range'_1.1 hk
          omega
      obtain ⟨hi1, hi2⟩ := ih
        ⟨nid + NUM_POLLED_MESSAGES, smk, ore, oup,
         pmk ++ newEntriesFor src id offsAll key (if off = 0 then 1 else off)
           NUM_POLLED_MESSAGES nid, pom, cmk, cor, cow, lco⟩ hb1
      dsimp only at hf1 hi1
      constructor
      · simp only [pollReads]
        rw [hf1, hi1, newEntries]
        simp only [KafkaLog.mk.injEq, List.append_assoc, coerceOff, and_true, true_and]
        simp only [NUM_POLLED_MESSAGES, List.length_cons]
        omega
      · intro o ho
        simp only [pollReads] at ho
        rw [hf1] at ho
        rcases List.mem_append.1 ho with ho | ho
        · exact hf2 o ho
        · exact hi2 o ho

theorem initMessages_eq {offs : List (String × Nat)} (hnd : (offs.map Prod.fst).Nodup) :
    initMessages offs = offs.map fun kv => (kv.1, ([] : List (Nat × Nat))) := by
  suffices h : ∀ (l : List (String × Nat)) (acc : List (String × List (Nat × Nat))),
      (l.map Prod.fst).Nodup → (∀ k ∈ l.map Prod.fst, k ∉ acc.map Prod.fst) →
      l.foldl (fun a kv => fmInsert a kv.1 []) acc
        = acc ++ l.map (fun kv => (kv.1, [])) by
    simpa [initMessages] using h offs [] hnd (by simp)
  intro l
  induction l with
  | nil => intro acc _ _; simp
  | cons hd t ih =>
      intro acc hnd2 hdisj
      obtain ⟨key, off⟩ := hd
      simp only [List.map_cons, List.nodup_cons] at hnd2
      rw [List.foldl_cons]
      have hkey : key ∉ acc.map Prod.fst := hdisj key (by simp)
      have hins : fmInsert acc key ([] : List (Nat × Nat)) = acc ++ [(key, [])] :=
        fmInsert_of_not_mem _ hkey
      dsimp only
      rw [hins, ih (acc ++ [(key, [])]) hnd2.2 ?_]
      · simp
      · intro k hk
        rw [List.map_append, List.mem_append]
        rintro (hka | hkk)
        · exact hdisj k (List.mem_cons_of_mem _ hk) hka
        · simp only [List.map_cons, List.map_nil, List.mem_singleton] at hkk
          exact hnd2.1 (hkk ▸ hk)

theorem fmFind_map_const {κ α β : Type} [DecidableEq κ] (l : List (κ × α)) (c : β)
    (k : κ) :
    fmFind (l.map fun kv => (kv.1, c)) k = (fmFind l k).map fun _ => c := by
  induction l with
  | nil => rfl
  | cons hd t ih =>
      obtain ⟨k₀, v₀⟩ := hd
      by_cases h : k₀ = k <;> simp [fmFind, h, ih]

theorem buildReturnedAux_mem {msgs : List (String × List (Nat × Nat))} :
    ∀ {req : List (String × Nat)} {acc res : List (String × List (Nat × Nat))},
      buildReturnedAux msgs acc req = some res →
      ∀ x ∈ res, x ∈ acc ∨ fmFind msgs x.1 = some x.2 := by
  intro req
  induction req with
  | nil =>
      intro acc res h x hx
      rw [buildReturnedAux] at h
      injection h with h
      subst h
      exact Or.inl hx
  | cons hd rest ih =>
      intro acc res h x hx
      obtain ⟨key, off⟩ := hd
      rw [buildReturnedAux] at h
      cases hf : fmFind msgs key with
      | none => rw [hf] at h; cases h
      | some ms =>
          rw [hf] at h
          rcases ih h x hx with hacc | hfind
          · rcases mem_fmInsert hacc with heq | hacc2
            · subst heq
              exact Or.inr hf
            · exact Or.inl hacc2
          · exact Or.inr hfind

theorem buildReturned_mem {msgs res : List (String × List (Nat × Nat))}
    {req : List (String × Nat)} (h : buildReturned msgs req = some res)
    {k : String} {ms : List (Nat × Nat)} (hx : (k, ms) ∈ res) :
    fmFind msgs k = some ms := by
  rcases buildReturnedAux_mem h _ hx with hacc | hf
  · simp at hacc
  · exact hf

theorem countE_erase {pmk : List (Nat × PollEntry)} {m : Nat} {entry : PollEntry}
    (hnd : (pmk.map Prod.fst).Nodup) (hf : fmFind pmk m = some entry) (K k : String) :
    countE pmk K k = countE (fmErase pmk m) K k +
      (if entry.aggOf = K ∧ entry.key = k then 1 else 0) := by
  obtain ⟨l₁, l₂, heq, her, -⟩ := fmErase_decomp hnd hf
  by_cases hc : entry.aggOf = K ∧ entry.key = k
  · have hb : (decide (entry.aggOf = K) && decide (entry.key = k)) = true := by
      simp [hc.1, hc.2]
    rw [if_pos hc, her, heq]
    simp [countE, List.countP_append, List.countP_cons, hb]
    omega
  · have hb : (decide (entry.aggOf = K) && decide (entry.key = k)) = false := by
      rcases not_and_or.1 hc with h | h <;> simp [h]
    rw [if_neg hc, her, heq]
    simp [countE, List.countP_append, List.countP_cons, hb]

theorem aggInv_mono {P P' : List (String × List (String × Nat))}
    {pmk pmk' : List (Nat × PollEntry)} {K : String} {A : PolledMessages}
    (h : aggInv P pmk K A)
    (hP : ∀ R, fmFind P K = some R → fmFind P' K = some R)
    (hsub : ∀ e ∈ pmk', e.2.aggOf = K → e ∈ pmk)
    (hcnt : ∀ k, countE pmk' K k ≤ countE pmk K k) : aggInv P' pmk' K A := by
  obtain ⟨R, hR, hRnd, hkeys, hagree, hwin⟩ := h
  refine ⟨R, hP R hR, hRnd, hkeys, ?_, ?_⟩
  · intro e he hagg
    exact hagree e (hsub e he hagg) hagg
  · intro k ms hms
    obtain ⟨h1, off, h2, h3⟩ := hwin k ms hms
    exact ⟨le_trans (Nat.add_le_add_left (hcnt k) _) h1, off, h2, h3⟩

theorem Inv_untouched {P : List (String × List (String × Nat))} {s s' : KafkaLog}
    (hInv : Inv P s) (h1 : s'.poll_msg_keys = s.poll_msg_keys)
    (h2 : s'.polled_messages = s.polled_messages) (h3 : s.nextId ≤ s'.nextId) :
    Inv P s' := by
  obtain ⟨hA, hB, hBp, hC, hD⟩ := hInv
  refine ⟨?_, ?_, ?_, ?_, ?_⟩
  · intro e he
    rw [h1] at he
    exact lt_of_lt_of_le (hA e he) h3
  · rw [h1]; exact hB
  · rw [h2]; exact hBp
  · intro e he
    rw [h1] at he
    exact hC e he
  · intro K A hKA
    rw [h2] at hKA
    rw [h1]
    exact hD K A hKA

theorem Inv_extendP {P Q : List (String × List (String × Nat))} {s : KafkaLog}
    (hInv : Inv P s) : Inv (P ++ Q) s := by
  obtain ⟨hA, hB, hBp, hC, hD⟩ := hInv
  refine ⟨hA, hB, hBp, ?_, ?_⟩
  · intro e he
    rw [List.map_append]
    exact List.mem_append_left _ (hC e he)
  · intro K A hKA
    exact aggInv_mono (hD K A hKA) (fun R hR => fmFind_append_left Q hR)
      (fun e he _ => he) (fun k => le_rfl)

theorem anchored_of_kv {P : List (String × List (String × Nat))} {o : OutMsg}
    (hp : ∃ p, o.payload = OutPayload.kv p) : PollOkAnchored P o := by
  intro msgs hmsgs
  obtain ⟨p, hp⟩ := hp
  rw [hp] at hmsgs
  cases hmsgs

theorem anchored_of_not_pollok {P : List (String × List (String × Nat))} {o : OutMsg}
    (h : ∀ msgs, o.payload ≠ .client (.PollOk msgs)) : PollOkAnchored P o :=
  fun msgs hm => absurd hm (h msgs)

theorem anchored_mono {P Q : List (String × List (String × Nat))} {o : OutMsg}
    (h : PollOkAnchored P o) : PollOkAnchored (P ++ Q) o := by
  intro msgs hm i hi
  obtain ⟨R, hR, hc⟩ := h msgs hm i hi
  exact ⟨R, fmFind_append_left Q hR, hc⟩

theorem anchored_of_client_other {P : List (String × List (String × Nat))}
    {o : OutMsg} (q : Payload) (hq : o.payload = .client q)
    (hne : ∀ msgs, q ≠ .PollOk msgs) : PollOkAnchored P o := by
  intro msgs hm
  rw [hq] at hm
  exact absurd (OutPayload.client.inj hm) (hne msgs)

theorem pollsOf_single_non_poll {m : KMsg} (h : ∀ offs, m.payload ≠ .Poll offs) :
    pollsOf [m] = [] := by
  obtain ⟨src, bid, irt, pay⟩ := m
  cases pay <;> cases bid <;> first
    | rfl
    | exact absurd rfl (h _)

theorem commitWrites_fields (src : String) (id total : Nat) :
    ∀ (pending : List (String × Nat)) (s : KafkaLog),
      (commitWrites src id total pending s).1.poll_msg_keys = s.poll_msg_keys ∧
      (commitWrites src id total pending s).1.polled_messages = s.polled_messages ∧
      s.nextId ≤ (commitWrites src id total pending s).1.nextId ∧
      ∀ o ∈ (commitWrites src id total pending s).2, ∃ p, o.payload = .kv p := by
  intro pending
  induction pending with
  | nil =>
      intro s
      exact ⟨rfl, rfl, le_rfl, by intro o ho; simp [commitWrites] at ho⟩
  | cons hd t ih =>
      intro s
      obtain ⟨key, off⟩ := hd
      obtain ⟨nid, smk, ore, oup, pmk, pom, cmk, cor, cow, lco⟩ := s
      obtain ⟨ih1, ih2, ih3, ih4⟩ := ih
        ⟨nid + 1, smk, ore, oup, pmk, pom,
         fmInsert cmk nid ⟨id, src, key, total⟩, cor, cow, lco⟩
      refine ⟨?_, ?_, ?_, ?_⟩
      · simpa [commitWrites, KafkaLog.sendToLinKv] using ih1
      · simpa [commitWrites, KafkaLog.sendToLinKv] using ih2
      · simp only [commitWrites, KafkaLog.sendToLinKv]
        exact le_trans (Nat.le_succ nid) ih3
      · intro o ho
        simp only [commitWrites, KafkaLog.sendToLinKv, List.mem_cons] at ho
        rcases ho with rfl | ho
        · exact ⟨_, rfl⟩
        · exact ih4 o ho

theorem listReads_fields (src : String) (id total : Nat) :
    ∀ (pending : List String) (s : KafkaLog),
      (listReads src id total pending s).1.poll_msg_keys = s.poll_msg_keys ∧
      (listReads src id total pending s).1.polled_messages = s.polled_messages ∧
      s.nextId ≤ (listReads src id total pending s).1.nextId ∧
      ∀ o ∈ (listReads src id total pending s).2, ∃ p, o.payload = .kv p := by
  intro pending
  induction pending with
  | nil =>
      intro s
      exact ⟨rfl, rfl, le_rfl, by intro o ho; simp [listReads] at ho⟩
  | cons key t ih =>
      intro s
      obtain ⟨nid, smk, ore, oup, pmk, pom, cmk, cor, cow, lco⟩ := s
      obtain ⟨ih1, ih2, ih3, ih4⟩ := ih
        ⟨nid + 1, smk, ore, oup, pmk, pom, cmk,
         fmInsert cor nid ⟨id, src, key, total⟩, cow, lco⟩
      refine ⟨?_, ?_, ?_, ?_⟩
      · simpa [listReads, KafkaLog.sendToLinKv] using ih1
      · simpa [listReads, KafkaLog.sendToLinKv] using ih2
      · simp only [listReads, KafkaLog.sendToLinKv]
        exact le_trans (Nat.le_succ nid) ih3
      · intro o ho
        simp only [listReads, KafkaLog.sendToLinKv, List.mem_cons] at ho
        rcases ho with rfl | ho
        · exact ⟨_, rfl⟩
        · exact ih4 o ho

theorem handle_step (P : List (String × List (String × Nat))) (s : KafkaLog)
    (m : KMsg) (hInv : Inv P s)
    (hfresh : ∀ x ∈ pollsOf [m], x.1 ∉ P.map Prod.fst)
    (hnodup : ∀ offs, m.payload = .Poll offs → (offs.map Prod.fst).Nodup) :
    (∀ o ∈ (handle s m).1, PollOkAnchored (P ++ pollsOf [m]) o) ∧
    ∀ s', (handle s m).2 = .ok s' → Inv (P ++ pollsOf [m]) s' := by
  obtain ⟨src, bid, irt, pay⟩ := m
  cases pay with
  | Send key msg =>
      rw [pollsOf_single_non_poll (by intro offs h; exact Payload.noConfusion h),
        List.append_nil]
      constructor
      · intro o ho
        cases bid <;>
          simp only [handle, KafkaLog.sendToLinKv, List.mem_singleton] at ho <;>
          exact anchored_of_kv ⟨_, by rw [ho]⟩
      · intro s' h
        cases bid with
        | none => simp [handle, KafkaLog.sendToLinKv] at h
        | some i =>
            simp only [handle, KafkaLog.sendToLinKv] at h
            rw [Except.ok.injEq] at h
            subst h
            exact Inv_untouched hInv rfl rfl (Nat.le_succ _)
  | SendOk off =>
      rw [pollsOf_single_non_poll (by intro offs h; exact Payload.noConfusion h),
        List.append_nil]
      refine ⟨?_, ?_⟩
      · intro o ho
        simp [handle] at ho
      · intro s' h
        simp only [handle] at h
        rw [Except.ok.injEq] at h
        subst h
        exact hInv
  | PollOk msgs =>
      rw [pollsOf_single_non_poll (by intro offs h; exact Payload.noConfusion h),
        List.append_nil]
      refine ⟨?_, ?_⟩
      · intro o ho
        simp [handle] at ho
      · intro s' h
        simp only [handle] at h
        rw [Except.ok.injEq] at h
        subst h
        exact hInv
  | CommitOffsetsOk =>
      rw [pollsOf_single_non_poll (by intro offs h; exact Payload.noConfusion h),
        List.append_nil]
      refine ⟨?_, ?_⟩
      · intro o ho
        simp [handle] at ho
      · intro s' h
        simp only [handle] at h
        rw [Except.ok.injEq] at h
        subst h
        exact hInv
  | ListCommittedOffsetsOk offs =>
      rw [pollsOf_single_non_poll (by intro offs h; exact Payload.noConfusion h),
        List.append_nil]
      refine ⟨?_, ?_⟩
      · intro o ho
        simp [handle] at ho
      · intro s' h
        simp only [handle] at h
        rw [Except.ok.injEq] at h
        subst h
        exact hInv
  | CommitOffsets offsets =>
      rw [pollsOf_single_non_poll (by intro offs h; exact Payload.noConfusion h),
        List.append_nil]
      cases bid with
      | none =>
          refine ⟨?_, ?_⟩
          · intro o ho
            simp [handle] at ho
          · intro s' h
            simp [handle] at h
      | some i =>
          obtain ⟨f1, f2, f3, f4⟩ := commitWrites_fields src i offsets.length offsets
            { s with committed_offsets_written :=
                fmInsert s.committed_offsets_written (aggKey src i) 0 }
          refine ⟨?_, ?_⟩
          · intro o ho
            simp only [handle] at ho
            exact anchored_of_kv (f4 o ho)
          · intro s' h
            simp only [handle] at h
            rw [Except.ok.injEq] at h
            subst h
            exact Inv_untouched hInv f1 f2 f3
  | ListCommittedOffsets keys =>
      rw [pollsOf_single_non_poll (by intro offs h; exact Payload.noConfusion h),
        List.append_nil]
      cases bid with
      | none =>
          refine ⟨?_, ?_⟩
          · intro o ho
            simp [handle] at ho
          · intro s' h
            simp [handle] at h
      | some i =>
          obtain ⟨f1, f2, f3, f4⟩ := listReads_fields src i keys.length keys s
          refine ⟨?_, ?_⟩
          · intro o ho
            simp only [handle] at ho
            exact anchored_of_kv (f4 o ho)
          · intro s' h
            simp only [handle] at h
            rw [Except.ok.injEq] at h
            subst h
            exact Inv_untouched hInv f1 f2 f3
  | CasOk =>
      rw [pollsOf_single_non_poll (by intro offs h; exact Payload.noConfusion h),
        List.append_nil]
      cases irt with
      | none =>
          refine ⟨?_, ?_⟩
          · intro o ho
            simp [handle] at ho
          · intro s' h
            simp [handle] at h
      | some mid =>
          cases h1 : fmFind s.offset_updates mid with
          | none =>
              refine ⟨?_, ?_⟩
              · intro o ho
                simp [handle, h1] at ho
              · intro s' h
                simp [handle, h1] at h
          | some kv =>
              cases h2 : fmFind s.send_msg_keys mid with
              | none =>
                  refine ⟨?_, ?_⟩
                  · intro o ho
                    simp [handle, h1, h2] at ho
                  · intro s' h
                    simp [handle, h1, h2] at h
              | some entry =>
                  refine ⟨?_, ?_⟩
                  · intro o ho
                    simp only [handle, h1, h2, KafkaLog.sendToLinKv,
                      List.mem_singleton] at ho
                    exact anchored_of_kv ⟨_, by rw [ho]⟩
                  · intro s' h
                    simp only [handle, h1, h2, KafkaLog.sendToLinKv] at h
                    rw [Except.ok.injEq] at h
                    subst h
                    exact Inv_untouched hInv rfl rfl (Nat.le_succ _)
  | WriteOk =>
      rw [pollsOf_single_non_poll (by intro offs h; exact Payload.noConfusion h),
        List.append_nil]
      cases irt with
      | none =>
          refine ⟨?_, ?_⟩
          · intro o ho
            simp [handle] at ho
          · intro s' h
            simp [handle] at h
      | some mid =>
          cases h1 : fmFind s.send_msg_keys mid with
          | some entry =>
              refine ⟨?_, ?_⟩
              · intro o ho
                simp only [handle, h1, KafkaLog.replyTo, List.mem_singleton] at ho
                refine anchored_of_client_other (.SendOk entry.offset)
                  (by rw [ho]) ?_
                intro msgs hm
                exact Payload.noConfusion hm
              · intro s' h
                simp only [handle, h1, KafkaLog.replyTo] at h
                rw [Except.ok.injEq] at h
                subst h
                exact Inv_untouched hInv rfl rfl (Nat.le_succ _)
          | none =>
              cases h2 : fmFind s.commit_msg_keys mid with
              | none =>
                  refine ⟨?_, ?_⟩
                  · intro o ho
                    simp [handle, h1, h2] at ho
                  · intro s' h
                    simp [handle, h1, h2] at h
              | some entry =>
                  cases h3 : fmFind s.committed_offsets_written
                      (aggKey entry.orig_msg_src entry.orig_msg_id) with
                  | none =>
                      refine ⟨?_, ?_⟩
                      · intro o ho
                        simp [handle, h1, h2, h3] at ho
                      · intro s' h
                        simp [handle, h1, h2, h3] at h
                  | some cnt =>
                      by_cases hc : cnt + 1 < entry.requested_keys_count
                      · refine ⟨?_, ?_⟩
                        · intro o ho
                          simp [handle, h1, h2, h3, hc] at ho
                        · intro s' h
                          simp only [handle, h1, h2, h3, if_pos hc] at h
                          rw [Except.ok.injEq] at h
                          subst h
                          exact Inv_untouched hInv rfl rfl le_rfl
                      · refine ⟨?_, ?_⟩
                        · intro o ho
                          simp only [handle, h1, h2, h3, if_neg hc,
                            KafkaLog.replyTo, List.mem_singleton] at ho
                          refine anchored_of_client_other .CommitOffsetsOk
                            (by rw [ho]) ?_
                          intro msgs hm
                          exact Payload.noConfusion hm
                        · intro s' h
                          simp only [handle, h1, h2, h3, if_neg hc,
                            KafkaLog.replyTo] at h
                          rw [Except.ok.injEq] at h
                          subst h
                          exact Inv_untouched hInv rfl rfl (Nat.le_succ _)
  | ReadOk value =>
      rw [pollsOf_single_non_poll (by intro offs h; exact Payload.noConfusion h),
        List.append_nil]
      cases irt with
      | none =>
          refine ⟨?_, ?_⟩
          · intro o ho
            simp [handle] at ho
          · intro s' h
            simp [handle] at h
      | some mid =>
          cases h1 : fmFind s.offset_reads mid with
          | some okey =>
              cases h2 : fmFind s.send_msg_keys mid with
              | some entry =>
                  refine ⟨?_, ?_⟩
                  · intro o ho
                    simp only [handle, h1, h2, KafkaLog.sendToLinKv,
                      List.mem_singleton] at ho
                    exact anchored_of_kv ⟨_, by rw [ho]⟩
                  · intro s' h
                    simp only [handle, h1, h2, KafkaLog.sendToLinKv] at h
                    rw [Except.ok.injEq] at h
                    subst h
                    exact Inv_untouched hInv rfl rfl (Nat.le_succ _)
              | none =>
                  refine ⟨?_, ?_⟩
                  · intro o ho
                    simp only [handle, h1, h2, KafkaLog.sendToLinKv,
                      List.mem_singleton] at ho
                    exact anchored_of_kv ⟨_, by rw [ho]⟩
                  · intro s' h
                    simp only [handle, h1, h2, KafkaLog.sendToLinKv] at h
                    rw [Except.ok.injEq] at h
                    subst h
                    exact Inv_untouched hInv rfl rfl (Nat.le_succ _)
          | none =>
              cases h2 : fmFind s.poll_msg_keys mid with
              | some entry =>
                  obtain ⟨hA, hB, hBp, hC, hD⟩ := hInv
                  have hsubE : ∀ x ∈ fmErase s.poll_msg_keys mid, x ∈ s.poll_msg_keys :=
                    fun x hx => (fmErase_sublist _ _).subset hx
                  have hA2 : ∀ e ∈ fmErase s.poll_msg_keys mid, e.1 < s.nextId :=
                    fun e he => hA e (hsubE e he)
                  have hndE : ((fmErase s.poll_msg_keys mid).map Prod.fst).Nodup :=
                    hB.sublist ((fmErase_sublist _ _).map Prod.fst)
                  have hC2 : ∀ e ∈ fmErase s.poll_msg_keys mid,
                      e.2.aggOf ∈ P.map Prod.fst :=
                    fun e he => hC e (hsubE e he)
                  have hcnt2 : ∀ K2 k2, countE (fmErase s.poll_msg_keys mid) K2 k2
                      ≤ countE s.poll_msg_keys K2 k2 := by
                    intro K2 k2
                    rw [countE_erase hB h2 K2 k2]
                    exact Nat.le_add_right _ _
                  cases hpm : fmFind s.polled_messages
                      (aggKey entry.orig_msg_src entry.orig_msg_id) with
                  | none =>
                      refine ⟨?_, ?_⟩
                      · intro o ho
                        simp [handle, h1, h2, hpm] at ho
                      · intro s' h
                        simp [handle, h1, h2, hpm] at h
                  | some pm =>
                      obtain ⟨R, hR, hRnd, hkeys, hagree, hwin⟩ :=
                        hD (aggKey entry.orig_msg_src entry.orig_msg_id) pm hpm
                      have hmemE : (mid, entry) ∈ s.poll_msg_keys := fmFind_mem h2
                      obtain ⟨hreq, off₀, hoff₀, hle₀⟩ :=
                        hagree (mid, entry) hmemE rfl
                      have hagree2 : ∀ e ∈ fmErase s.poll_msg_keys mid,
                          e.2.aggOf = aggKey entry.orig_msg_src entry.orig_msg_id →
                          entryAgrees R e.2 :=
                        fun e he hg => hagree e (hsubE e he) hg
                      have hkmem : entry.key ∈ pm.messages.map Prod.fst := by
                        rw [hkeys]
                        exact List.mem_map_of_mem Prod.fst (fmFind_mem hoff₀)
                      obtain ⟨old, hold⟩ : ∃ old, fmFind pm.messages entry.key
                          = some old := by
                        cases hfind : fmFind pm.messages entry.key with
                        | some o => exact ⟨o, rfl⟩
                        | none =>
                            rw [fmFind_eq_none] at hfind
                            exact absurd hkmem hfind
                      have hpmm : fmFind (fmModify pm.messages entry.key
                            fun v => v ++ [(entry.offset, value)]) entry.key
                          = some (old ++ [(entry.offset, value)]) := by
                        rw [fmFind_fmModify, if_pos rfl, hold]
                        rfl
                      have hwin2 : ∀ k2 ms, fmFind (fmModify pm.messages entry.key
                            fun v => v ++ [(entry.offset, value)]) k2 = some ms →
                          ms.length + countE (fmErase s.poll_msg_keys mid)
                            (aggKey entry.orig_msg_src entry.orig_msg_id) k2
                            ≤ NUM_POLLED_MESSAGES ∧
                          ∃ off, fmFind R k2 = some off ∧
                            ∀ p ∈ ms, coerceOff off ≤ p.1 := by
                        intro k2 ms hms
                        rw [fmFind_fmModify] at hms
                        have hcE := countE_erase hB h2
                          (aggKey entry.orig_msg_src entry.orig_msg_id) k2
                        by_cases hk2 : entry.key = k2
                        · subst hk2
                          rw [if_pos rfl, hold] at hms
                          injection hms with hms
                          subst hms
                          obtain ⟨hb1, off, hoff, hball⟩ := hwin entry.key old hold
                          rw [if_pos ⟨rfl, rfl⟩] at hcE
                          refine ⟨?_, off, hoff, ?_⟩
                          · rw [List.length_append, List.length_singleton]
                            omega
                          · intro p hp
                            rcases List.mem_append.1 hp with hp | hp
                            · exact hball p hp
                            · rw [List.mem_singleton] at hp
                              subst hp
                              have hoo : off₀ = off := by
                                rw [hoff₀] at hoff
                                injection hoff
                              exact hoo ▸ hle₀
                        · rw [if_neg hk2] at hms
                          obtain ⟨hb1, off, hoff, hball⟩ := hwin k2 ms hms
                          rw [if_neg (fun hc => hk2 hc.2)] at hcE
                          exact ⟨by omega, off, hoff, hball⟩
                      have hInv2 : ∀ ck, Inv P
                          { s with poll_msg_keys := fmErase s.poll_msg_keys mid
                                   polled_messages := fmInsert s.polled_messages
                                     (aggKey entry.orig_msg_src entry.orig_msg_id)
                                     ⟨fmModify pm.messages entry.key
                                       (fun v => v ++ [(entry.offset, value)]),
                                      pm.requested_keys, ck⟩ } := by
                        intro ck
                        refine ⟨hA2, hndE, ?_, hC2, ?_⟩
                        · show ((fmInsert s.polled_messages _ _).map Prod.fst).Nodup
                          rw [keys_fmInsert_of_found _ hpm]
                          exact hBp
                        · intro K' A' hKA'
                          show aggInv P (fmErase s.poll_msg_keys mid) K' A'
                          rw [show ({ s with
                              poll_msg_keys := fmErase s.poll_msg_keys mid
                              polled_messages := fmInsert s.polled_messages
                                (aggKey entry.orig_msg_src entry.orig_msg_id)
                                ⟨fmModify pm.messages entry.key
                                  (fun v => v ++ [(entry.offset, value)]),
                                 pm.requested_keys, ck⟩ } : KafkaLog).polled_messages
                              = fmInsert s.polled_messages
                                (aggKey entry.orig_msg_src entry.orig_msg_id)
                                ⟨fmModify pm.messages entry.key
                                  (fun v => v ++ [(entry.offset, value)]),
                                 pm.requested_keys, ck⟩ from rfl,
                            fmFind_fmInsert] at hKA'
                          by_cases hK' : aggKey entry.orig_msg_src entry.orig_msg_id
                              = K'
                          · rw [if_pos hK'] at hKA'
                            injection hKA' with hKA'
                            subst hKA'
                            subst hK'
                            refine ⟨R, hR, hRnd, ?_, hagree2, hwin2⟩
                            show (fmModify pm.messages entry.key
                              (fun v => v ++ [(entry.offset, value)])).map Prod.fst
                              = R.map Prod.fst
                            rw [keys_fmModify, hkeys]
                          · rw [if_neg hK'] at hKA'
                            exact aggInv_mono (hD K' A' hKA') (fun R' hR' => hR')
                              (fun e he hg => hsubE e he) (hcnt2 K')
                      have hInv3 : ∀ ck, Inv P
                          { s with nextId := s.nextId + 1
                                   poll_msg_keys := fmErase s.poll_msg_keys mid
                                   polled_messages := fmErase
                                     (fmInsert s.polled_messages
                                       (aggKey entry.orig_msg_src entry.orig_msg_id)
                                       ⟨fmModify pm.messages entry.key
                                         (fun v => v ++ [(entry.offset, value)]),
                                        pm.requested_keys, ck⟩)
                                     (aggKey entry.orig_msg_src entry.orig_msg_id) } := by
                        intro ck
                        obtain ⟨iA, iB, iBp, iC, iD⟩ := hInv2 ck
                        refine ⟨?_, iB, ?_, iC, ?_⟩
                        · intro e he
                          exact Nat.lt_succ_of_lt (iA e he)
                        · exact iBp.sublist ((fmErase_sublist _ _).map Prod.fst)
                        · intro K' A' hKA'
                          have hKA2 : fmFind (fmErase
                                (fmInsert s.polled_messages
                                  (aggKey entry.orig_msg_src entry.orig_msg_id)
                                  ⟨fmModify pm.messages entry.key
                                    (fun v => v ++ [(entry.offset, value)]),
                                   pm.requested_keys, ck⟩)
                                (aggKey entry.orig_msg_src entry.orig_msg_id)) K'
                              = some A' := hKA'
                          rw [fmFind_fmErase iBp] at hKA2
                          by_cases hK' : aggKey entry.orig_msg_src entry.orig_msg_id
                              = K'
                          · rw [if_pos hK'] at hKA2
                            cases hKA2
                          · rw [if_neg hK'] at hKA2
                            exact iD K' A' hKA2
                      have hreplyA : ∀ returned,
                          buildReturned (fmModify pm.messages entry.key
                            fun v => v ++ [(entry.offset, value)])
                            entry.requested_key_offsets = some returned →
                          PollOkAnchored P ⟨entry.orig_msg_src, s.nextId,
                            some entry.orig_msg_id, .client (.PollOk returned)⟩ := by
                        intro returned hbr msgs hm i hi
                        have hmsgs : msgs = returned :=
                          (Payload.PollOk.inj (OutPayload.client.inj hm)).symm
                        have hii : i = entry.orig_msg_id := by
                          injection hi with hi
                          exact hi.symm
                        subst hmsgs
                        subst hii
                        refine ⟨R, hR, ?_⟩
                        intro k2 ms hkms
                        have hfnd := buildReturned_mem hbr hkms
                        obtain ⟨hb1, off, hoff, hball⟩ := hwin2 k2 ms hfnd
                        refine ⟨by omega, ?_⟩
                        intro p hp off' hoff'
                        have hoo : off = off' := by
                          rw [hoff] at hoff'
                          injection hoff'
                        exact hoo ▸ hball p hp
                      by_cases hlen : NUM_POLLED_MESSAGES
                          ≤ (old ++ [(entry.offset, value)]).length
                      · have hlen' : NUM_POLLED_MESSAGES ≤ old.length + 1 := by
                          simpa using hlen
                        by_cases hcompl : PolledMessages.all_completed
                            ⟨fmModify pm.messages entry.key
                              (fun v => v ++ [(entry.offset, value)]),
                             pm.requested_keys,
                             setInsert pm.completed_keys entry.key⟩ = true
                        · cases hbr : buildReturned (fmModify pm.messages entry.key
                              fun v => v ++ [(entry.offset, value)])
                              entry.requested_key_offsets with
                          | none =>
                              refine ⟨?_, ?_⟩
                              · intro o ho
                                simp [handle, h1, h2, hpm, hpmm, hlen',
                                  hcompl, hbr] at ho
                              · intro s' h
                                simp [handle, h1, h2, hpm, hpmm, hlen',
                                  hcompl, hbr] at h
                          | some returned =>
                              refine ⟨?_, ?_⟩
                              · intro o ho
                                simp only [handle, h1, h2, hpm, hpmm, if_pos hlen,
                                  hcompl, Bool.not_true, Bool.false_eq_true,
                                  if_false, hbr, KafkaLog.replyTo,
                                  List.mem_singleton] at ho
                                subst ho
                                exact hreplyA returned hbr
                              · intro s' h
                                simp only [handle, h1, h2, hpm, hpmm, if_pos hlen,
                                  hcompl, Bool.not_true, Bool.false_eq_true,
                                  if_false, hbr, KafkaLog.replyTo] at h
                                rw [Except.ok.injEq] at h
                                subst h
                                exact hInv3 _
                        · rw [Bool.not_eq_true] at hcompl
                          refine ⟨?_, ?_⟩
                          · intro o ho
                            simp [handle, h1, h2, hpm, hpmm, hlen',
                              hcompl] at ho
                          · intro s' h
                            simp only [handle, h1, h2, hpm, hpmm, if_pos hlen,
                              hcompl, Bool.not_false, if_true] at h
                            rw [Except.ok.injEq] at h
                            subst h
                            exact hInv2 _
                      · have hlen' : ¬ NUM_POLLED_MESSAGES ≤ old.length + 1 := by
                          simpa using hlen
                        by_cases hcompl : PolledMessages.all_completed
                            ⟨fmModify pm.messages entry.key
                              (fun v => v ++ [(entry.offset, value)]),
                             pm.requested_keys, pm.completed_keys⟩ = true
                        · cases hbr : buildReturned (fmModify pm.messages entry.key
                              fun v => v ++ [(entry.offset, value)])
                              entry.requested_key_offsets with
                          | none =>
                              refine ⟨?_, ?_⟩
                              · intro o ho
                                simp [handle, h1, h2, hpm, hpmm, hlen',
                                  hcompl, hbr] at ho
                              · intro s' h
                                simp [handle, h1, h2, hpm, hpmm, hlen',
                                  hcompl, hbr] at h
                          | some returned =>
                              refine ⟨?_, ?_⟩
                              · intro o ho
                                simp only [handle, h1, h2, hpm, hpmm, if_neg hlen,
                                  hcompl, Bool.not_true, Bool.false_eq_true,
                                  if_false, hbr, KafkaLog.replyTo,
                                  List.mem_singleton] at ho
                                subst ho
                                exact hreplyA returned hbr
                              · intro s' h
                                simp only [handle, h1, h2, hpm, hpmm, if_neg hlen,
                                  hcompl, Bool.not_true, Bool.false_eq_true,
                                  if_false, hbr, KafkaLog.replyTo] at h
                                rw [Except.ok.injEq] at h
                                subst h
                                exact hInv3 _
                        · rw [Bool.not_eq_true] at hcompl
                          refine ⟨?_, ?_⟩
                          · intro o ho
                            simp [handle, h1, h2, hpm, hpmm, hlen',
                              hcompl] at ho
                          · intro s' h
                            simp only [handle, h1, h2, hpm, hpmm, if_neg hlen,
                              hcompl, Bool.not_false, if_true] at h
                            rw [Except.ok.injEq] at h
                            subst h
                            exact hInv2 _
              | none =>
                  cases h3 : fmFind s.committed_offset_reads mid with
                  | none =>
                      refine ⟨?_, ?_⟩
                      · intro o ho
                        simp [handle, h1, h2, h3] at ho
                      · intro s' h
                        simp [handle, h1, h2, h3] at h
                  | some entry =>
                      cases h4 : fmFind s.list_committed_offsets
                          (aggKey entry.orig_msg_src entry.orig_msg_id) with
                      | none =>
                          refine ⟨?_, ?_⟩
                          · intro o ho
                            simp [handle, h1, h2, h3, h4] at ho
                          · intro s' h
                            simp [handle, h1, h2, h3, h4] at h
                      | some co =>
                          by_cases hc : (CommittedOffsets.all_completed
                              ⟨fmInsert co.offsets entry.key value,
                               co.requested_keys⟩) = true
                          · refine ⟨?_, ?_⟩
                            · intro o ho
                              simp only [handle, h1, h2, h3, h4, hc,
                                KafkaLog.replyTo, Bool.not_true, Bool.false_eq_true,
                                if_false, List.mem_singleton] at ho
                              refine anchored_of_client_other
                                (.ListCommittedOffsetsOk (copyOffsets
                                  (fmInsert co.offsets entry.key value)))
                                (by rw [ho]) ?_
                              intro msgs hm
                              exact Payload.noConfusion hm
                            · intro s' h
                              simp only [handle, h1, h2, h3, h4, hc,
                                KafkaLog.replyTo, Bool.not_true, Bool.false_eq_true,
                                if_false] at h
                              rw [Except.ok.injEq] at h
                              subst h
                              exact Inv_untouched hInv rfl rfl (Nat.le_succ _)
                          · rw [Bool.not_eq_true] at hc
                            refine ⟨?_, ?_⟩
                            · intro o ho
                              simp only [handle, h1, h2, h3, h4, hc,
                                Bool.not_false, if_true] at ho
                              simp at ho
                            · intro s' h
                              simp only [handle, h1, h2, h3, h4, hc,
                                Bool.not_false, if_true] at h
                              rw [Except.ok.injEq] at h
                              subst h
                              exact Inv_untouched hInv rfl rfl le_rfl
  | Error code text =>
      rw [pollsOf_single_non_poll (by intro offs h; exact Payload.noConfusion h),
        List.append_nil]
      cases irt with
      | none =>
          refine ⟨?_, ?_⟩
          · intro o ho
            simp [handle] at ho
          · intro s' h
            simp [handle] at h
      | some mid =>
          by_cases hc20 : code = ERROR_KEY_DOES_NOT_EXIST
          · cases h1 : fmFind s.offset_reads mid with
            | some kv_offset_key =>
                cases h2 : fmFind s.send_msg_keys mid with
                | some entry =>
                    refine ⟨?_, ?_⟩
                    · intro o ho
                      simp only [handle, if_pos hc20, h1, h2,
                        KafkaLog.sendToLinKv, List.mem_singleton] at ho
                      exact anchored_of_kv ⟨_, by rw [ho]⟩
                    · intro s' h
                      simp only [handle, if_pos hc20, h1, h2,
                        KafkaLog.sendToLinKv] at h
                      rw [Except.ok.injEq] at h
                      subst h
                      exact Inv_untouched hInv rfl rfl (Nat.le_succ _)
                | none =>
                    refine ⟨?_, ?_⟩
                    · intro o ho
                      simp only [handle, if_pos hc20, h1, h2,
                        KafkaLog.sendToLinKv, List.mem_singleton] at ho
                      exact anchored_of_kv ⟨_, by rw [ho]⟩
                    · intro s' h
                      simp [handle, if_pos hc20, h1, h2,
                        KafkaLog.sendToLinKv] at h
            | none =>
                cases h2 : fmFind s.poll_msg_keys mid with
                | some entry =>
                    obtain ⟨hA, hB, hBp, hC, hD⟩ := hInv
                    have hsubE : ∀ x ∈ fmErase s.poll_msg_keys mid,
                        x ∈ s.poll_msg_keys :=
                      fun x hx => (fmErase_sublist _ _).subset hx
                    have hA2 : ∀ e ∈ fmErase s.poll_msg_keys mid, e.1 < s.nextId :=
                      fun e he => hA e (hsubE e he)
                    have hndE : ((fmErase s.poll_msg_keys mid).map Prod.fst).Nodup :=
                      hB.sublist ((fmErase_sublist _ _).map Prod.fst)
                    have hC2 : ∀ e ∈ fmErase s.poll_msg_keys mid,
                        e.2.aggOf ∈ P.map Prod.fst :=
                      fun e he => hC e (hsubE e he)
                    have hcnt2 : ∀ K2 k2, countE (fmErase s.poll_msg_keys mid) K2 k2
                        ≤ countE s.poll_msg_keys K2 k2 := by
                      intro K2 k2
                      rw [countE_erase hB h2 K2 k2]
                      exact Nat.le_add_right _ _
                    cases hpm : fmFind s.polled_messages
                        (aggKey entry.orig_msg_src entry.orig_msg_id) with
                    | none =>
                        refine ⟨?_, ?_⟩
                        · intro o ho
                          simp [handle, if_pos hc20, h1, h2, hpm] at ho
                        · intro s' h
                          simp only [handle, if_pos hc20, h1, h2, hpm] at h
                          rw [Except.ok.injEq] at h
                          subst h
                          refine ⟨hA2, hndE, hBp, hC2, ?_⟩
                          intro K' A' hKA'
                          exact aggInv_mono (hD K' A' hKA') (fun R' hR' => hR')
                            (fun e he _ => hsubE e he) (hcnt2 K')
                    | some pm =>
                        obtain ⟨R, hR, hRnd, hkeys, hagree, hwin⟩ :=
                          hD (aggKey entry.orig_msg_src entry.orig_msg_id) pm hpm
                        have hagree2 : ∀ e ∈ fmErase s.poll_msg_keys mid,
                            e.2.aggOf = aggKey entry.orig_msg_src entry.orig_msg_id →
                            entryAgrees R e.2 :=
                          fun e he hg => hagree e (hsubE e he) hg
                        have hwin2 : ∀ k2 ms, fmFind pm.messages k2 = some ms →
                            ms.length + countE (fmErase s.poll_msg_keys mid)
                              (aggKey entry.orig_msg_src entry.orig_msg_id) k2
                              ≤ NUM_POLLED_MESSAGES ∧
                            ∃ off, fmFind R k2 = some off ∧
                              ∀ p ∈ ms, coerceOff off ≤ p.1 := by
                          intro k2 ms hms
                          obtain ⟨hb1, off, hoff, hball⟩ := hwin k2 ms hms
                          exact ⟨le_trans (Nat.add_le_add_left (hcnt2 _ _) _) hb1,
                            off, hoff, hball⟩
                        have hInv2 : Inv P
                            { s with poll_msg_keys := fmErase s.poll_msg_keys mid
                                     polled_messages := fmInsert s.polled_messages
                                       (aggKey entry.orig_msg_src entry.orig_msg_id)
                                       ⟨pm.messages, pm.requested_keys,
                                        setInsert pm.completed_keys entry.key⟩ } := by
                          refine ⟨hA2, hndE, ?_, hC2, ?_⟩
                          · show ((fmInsert s.polled_messages _ _).map Prod.fst).Nodup
                            rw [keys_fmInsert_of_found _ hpm]
                            exact hBp
                          · intro K' A' hKA'
                            show aggInv P (fmErase s.poll_msg_keys mid) K' A'
                            have hKA2 : fmFind (fmInsert s.polled_messages
                                  (aggKey entry.orig_msg_src entry.orig_msg_id)
                                  ⟨pm.messages, pm.requested_keys,
                                   setInsert pm.completed_keys entry.key⟩) K'
                                = some A' := hKA'
                            rw [fmFind_fmInsert] at hKA2
                            by_cases hK' : aggKey entry.orig_msg_src entry.orig_msg_id
                                = K'
                            · rw [if_pos hK'] at hKA2
                              injection hKA2 with hKA2
                              subst hKA2
                              subst hK'
                              exact ⟨R, hR, hRnd, hkeys, hagree2, hwin2⟩
                            · rw [if_neg hK'] at hKA2
                              exact aggInv_mono (hD K' A' hKA2) (fun R' hR' => hR')
                                (fun e he hg => hsubE e he) (hcnt2 K')
                        have hInv3 : Inv P
                            { s with nextId := s.nextId + 1
                                     poll_msg_keys := fmErase s.poll_msg_keys mid
                                     polled_messages := fmErase
                                       (fmInsert s.polled_messages
                                         (aggKey entry.orig_msg_src entry.orig_msg_id)
                                         ⟨pm.messages, pm.requested_keys,
                                          setInsert pm.completed_keys entry.key⟩)
                                       (aggKey entry.orig_msg_src
                                         entry.orig_msg_id) } := by
                          obtain ⟨iA, iB, iBp, iC, iD⟩ := hInv2
                          refine ⟨?_, iB, ?_, iC, ?_⟩
                          · intro e he
                            exact Nat.lt_succ_of_lt (iA e he)
                          · exact iBp.sublist ((fmErase_sublist _ _).map Prod.fst)
                          · intro K' A' hKA'
                            have hKA2 : fmFind (fmErase
                                  (fmInsert s.polled_messages
                                    (aggKey entry.orig_msg_src entry.orig_msg_id)
                                    ⟨pm.messages, pm.requested_keys,
                                     setInsert pm.completed_keys entry.key⟩)
                                  (aggKey entry.orig_msg_src entry.orig_msg_id)) K'
                                = some A' := hKA'
                            rw [fmFind_fmErase iBp] at hKA2
                            by_cases hK' : aggKey entry.orig_msg_src
                                entry.orig_msg_id = K'
                            · rw [if_pos hK'] at hKA2
                              cases hKA2
                            · rw [if_neg hK'] at hKA2
                              exact iD K' A' hKA2
                        have hreplyA : ∀ returned,
                            buildReturned pm.messages entry.requested_key_offsets
                              = some returned →
                            PollOkAnchored P ⟨entry.orig_msg_src, s.nextId,
                              some entry.orig_msg_id, .client (.PollOk returned)⟩ := by
                          intro returned hbr msgs hm i hi
                          have hmsgs : msgs = returned :=
                            (Payload.PollOk.inj (OutPayload.client.inj hm)).symm
                          have hii : i = entry.orig_msg_id := by
                            injection hi with hi
                            exact hi.symm
                          subst hmsgs
                          subst hii
                          refine ⟨R, hR, ?_⟩
                          intro k2 ms hkms
                          have hfnd := buildReturned_mem hbr hkms
                          obtain ⟨hb1, off, hoff, hball⟩ := hwin k2 ms hfnd
                          refine ⟨by omega, ?_⟩
                          intro p hp off' hoff'
                          have hoo : off = off' := by
                            rw [hoff] at hoff'
                            injection hoff'
                          exact hoo ▸ hball p hp
                        by_cases hcompl : PolledMessages.all_completed
                            ⟨pm.messages, pm.requested_keys,
                             setInsert pm.completed_keys entry.key⟩ = true
                        · cases hbr : buildReturned pm.messages
                              entry.requested_key_offsets with
                          | none =>
                              refine ⟨?_, ?_⟩
                              · intro o ho
                                simp [handle, if_pos hc20, h1, h2, hpm,
                                  hcompl, hbr] at ho
                              · intro s' h
                                simp [handle, if_pos hc20, h1, h2, hpm,
                                  hcompl, hbr] at h
                          | some returned =>
                              refine ⟨?_, ?_⟩
                              · intro o ho
                                simp only [handle, if_pos hc20, h1, h2, hpm,
                                  hcompl, Bool.not_true, Bool.false_eq_true,
                                  if_false, hbr, KafkaLog.replyTo,
                                  List.mem_singleton] at ho
                                subst ho
                                exact hreplyA returned hbr
                              · intro s' h
                                simp only [handle, if_pos hc20, h1, h2, hpm,
                                  hcompl, Bool.not_true, Bool.false_eq_true,
                                  if_false, hbr, KafkaLog.replyTo] at h
                                rw [Except.ok.injEq] at h
                                subst h
                                exact hInv3
                        · rw [Bool.not_eq_true] at hcompl
                          refine ⟨?_, ?_⟩
                          · intro o ho
                            simp [handle, if_pos hc20, h1, h2, hpm, hcompl] at ho
                          · intro s' h
                            simp only [handle, if_pos hc20, h1, h2, hpm,
                              hcompl, Bool.not_false, if_true] at h
                            rw [Except.ok.injEq] at h
                            subst h
                            exact hInv2
                | none =>
                    cases h3 : fmFind s.committed_offset_reads mid with
                    | some entry =>
                        refine ⟨?_, ?_⟩
                        · intro o ho
                          simp only [handle, if_pos hc20, h1, h2, h3,
                            KafkaLog.replyTo, List.mem_singleton] at ho
                          refine anchored_of_client_other
                            (.ListCommittedOffsetsOk []) (by rw [ho]) ?_
                          intro msgs hm
                          exact Payload.noConfusion hm
                        · intro s' h
                          simp only [handle, if_pos hc20, h1, h2, h3,
                            KafkaLog.replyTo] at h
                          rw [Except.ok.injEq] at h
                          subst h
                          exact Inv_untouched hInv rfl rfl (Nat.le_succ _)
                    | none =>
                        refine ⟨?_, ?_⟩
                        · intro o ho
                          simp [handle, if_pos hc20, h1, h2, h3] at ho
                        · intro s' h
                          simp [handle, if_pos hc20, h1, h2, h3] at h
          · by_cases hc22 : code = ERROR_PRECONDITION_FAILED
            · cases h1 : fmFind s.offset_updates mid with
              | some kv =>
                  cases h2 : fmFind s.send_msg_keys mid with
                  | some entry =>
                      refine ⟨?_, ?_⟩
                      · intro o ho
                        simp only [handle, if_neg hc20, if_pos hc22, h1, h2,
                          KafkaLog.sendToLinKv, List.mem_singleton] at ho
                        exact anchored_of_kv ⟨_, by rw [ho]⟩
                      · intro s' h
                        simp only [handle, if_neg hc20, if_pos hc22, h1, h2,
                          KafkaLog.sendToLinKv] at h
                        rw [Except.ok.injEq] at h
                        subst h
                        exact Inv_untouched hInv rfl rfl (Nat.le_succ _)
                  | none =>
                      refine ⟨?_, ?_⟩
                      · intro o ho
                        simp only [handle, if_neg hc20, if_pos hc22, h1, h2,
                          KafkaLog.sendToLinKv, List.mem_singleton] at ho
                        exact anchored_of_kv ⟨_, by rw [ho]⟩
                      · intro s' h
                        simp [handle, if_neg hc20, if_pos hc22, h1, h2,
                          KafkaLog.sendToLinKv] at h
              | none =>
                  refine ⟨?_, ?_⟩
                  · intro o ho
                    simp [handle, if_neg hc20, if_pos hc22, h1] at ho
                  · intro s' h
                    simp [handle, if_neg hc20, if_pos hc22, h1] at h
            · refine ⟨?_, ?_⟩
              · intro o ho
                simp [handle, if_neg hc20, if_neg hc22] at ho
              · intro s' h
                simp [handle, if_neg hc20, if_neg hc22] at h
  | Poll offsets =>
      cases bid with
      | none =>
          rw [show pollsOf [(⟨src, none, irt, Payload.Poll offsets⟩ : KMsg)]
            = [] from rfl, List.append_nil]
          cases offsets with
          | nil =>
              refine ⟨?_, ?_⟩
              · intro o ho
                simp only [handle, List.isEmpty_nil, if_true,
                  KafkaLog.replyIncoming, List.mem_singleton] at ho
                subst ho
                intro msgs hm i hi
                exact Option.noConfusion hi
              · intro s' h
                simp only [handle, List.isEmpty_nil, if_true,
                  KafkaLog.replyIncoming] at h
                rw [Except.ok.injEq] at h
                subst h
                exact Inv_untouched hInv rfl rfl (Nat.le_succ _)
          | cons o0 rest =>
              refine ⟨?_, ?_⟩
              · intro o ho
                simp [handle] at ho
              · intro s' h
                simp [handle] at h
      | some orig =>
          cases offsets with
          | nil =>
              rw [show pollsOf [(⟨src, some orig, irt, Payload.Poll []⟩ : KMsg)]
                = [(aggKey src orig, ([] : List (String × Nat)))] from rfl]
              have hKfresh : aggKey src orig ∉ P.map Prod.fst :=
                hfresh _ (List.mem_singleton.2 rfl)
              refine ⟨?_, ?_⟩
              · intro o ho
                simp only [handle, List.isEmpty_nil, if_true,
                  KafkaLog.replyIncoming, List.mem_singleton] at ho
                subst ho
                intro msgs hm i hi
                have hmsgs : msgs = [] :=
                  (Payload.PollOk.inj (OutPayload.client.inj hm)).symm
                injection hi with hi2
                subst hmsgs
                subst hi2
                refine ⟨[], ?_, ?_⟩
                · show fmFind (P ++ [(aggKey src orig, ([] : List (String × Nat)))])
                    (aggKey src orig) = some []
                  rw [fmFind_append_right _ (fmFind_eq_none.2 hKfresh)]
                  exact fmFind_of_mem_nodup (by simp) (List.mem_singleton.2 rfl)
                · intro k ms hkms
                  cases hkms
              · intro s' h
                simp only [handle, List.isEmpty_nil, if_true,
                  KafkaLog.replyIncoming] at h
                rw [Except.ok.injEq] at h
                subst h
                exact Inv_untouched (Inv_extendP hInv) rfl rfl (Nat.le_succ _)
          | cons o0 rest =>
              rw [show pollsOf [(⟨src, some orig, irt,
                  Payload.Poll (o0 :: rest)⟩ : KMsg)]
                = [(aggKey src orig, o0 :: rest)] from rfl]
              have hnd : ((o0 :: rest).map Prod.fst).Nodup := hnodup _ rfl
              have hKfresh : aggKey src orig ∉ P.map Prod.fst :=
                hfresh _ (List.mem_singleton.2 rfl)
              obtain ⟨hA, hB, hBp, hC, hD⟩ := hInv
              have hKnone : fmFind s.polled_messages (aggKey src orig) = none := by
                cases hf : fmFind s.polled_messages (aggKey src orig) with
                | none => rfl
                | some A =>
                    obtain ⟨R, hR, -⟩ := hD _ A hf
                    exact absurd (List.mem_map_of_mem Prod.fst (fmFind_mem hR))
                      hKfresh
              have hspec := pollReads_spec src orig (o0 :: rest) (o0 :: rest)
                { s with polled_messages := fmInsert s.polled_messages
                              (aggKey src orig)
                              ⟨initMessages (o0 :: rest),
                               (o0 :: rest).map Prod.fst, []⟩ }
                (fun e he => hA e he)
              have hz : ∀ k, countE s.poll_msg_keys (aggKey src orig) k = 0 := by
                intro k
                refine countE_eq_zero ?_
                intro x hx hc
                exact hKfresh (hc.1 ▸ hC x hx)
              refine ⟨?_, ?_⟩
              · intro o ho
                simp only [handle, List.isEmpty_cons, Bool.false_eq_true,
                  if_false] at ho
                obtain ⟨p, hp⟩ := hspec.2 o ho
                exact anchored_of_kv ⟨p, hp⟩
              · intro s' h
                simp only [handle, List.isEmpty_cons, Bool.false_eq_true,
                  if_false] at h
                rw [Except.ok.injEq] at h
                subst h
                rw [hspec.1]
                refine ⟨?_, ?_, ?_, ?_, ?_⟩
                · intro e he
                  have he2 : e ∈ s.poll_msg_keys ++ newEntries src orig
                      (o0 :: rest) (o0 :: rest) s.nextId := he
                  show e.1 < s.nextId +
                    NUM_POLLED_MESSAGES * (o0 :: rest).length
                  rcases List.mem_append.1 he2 with he3 | he3
                  · exact lt_of_lt_of_le (hA e he3) (Nat.le_add_right _ _)
                  · have hk := List.mem_map_of_mem Prod.fst he3
                    rw [newEntries_keys] at hk
                    exact (List.mem_range'_1.1 hk).2
                · show ((s.poll_msg_keys ++ newEntries src orig (o0 :: rest)
                      (o0 :: rest) s.nextId).map Prod.fst).Nodup
                  rw [List.map_append, newEntries_keys, List.nodup_append]
                  refine ⟨hB, List.nodup_range' _ _ 1 Nat.one_pos, ?_⟩
                  intro a ha ha2
                  obtain ⟨e, he, heq⟩ := List.mem_map.1 ha
                  rw [List.mem_range'_1] at ha2
                  have := hA e he
                  omega
                · show ((fmInsert s.polled_messages (aggKey src orig)
                      ⟨initMessages (o0 :: rest), (o0 :: rest).map Prod.fst,
                       []⟩).map Prod.fst).Nodup
                  rw [fmInsert_of_not_mem _ (fmFind_eq_none.1 hKnone),
                    List.map_append, List.nodup_append]
                  refine ⟨hBp, List.nodup_singleton _, ?_⟩
                  intro a ha ha2
                  simp only [List.map_cons, List.map_nil,
                    List.mem_singleton] at ha2
                  subst ha2
                  exact (fmFind_eq_none.1 hKnone) ha
                · intro e he
                  have he2 : e ∈ s.poll_msg_keys ++ newEntries src orig
                      (o0 :: rest) (o0 :: rest) s.nextId := he
                  show e.2.aggOf ∈ ((P ++ [(aggKey src orig, o0 :: rest)]).map
                    Prod.fst)
                  rw [List.map_append]
                  rcases List.mem_append.1 he2 with he3 | he3
                  · exact List.mem_append_left _ (hC e he3)
                  · refine List.mem_append_right _ ?_
                    rw [(newEntries_mem he3).1]
                    simp
                · intro K' A' hKA'
                  have hKA2 : fmFind (fmInsert s.polled_messages (aggKey src orig)
                      ⟨initMessages (o0 :: rest), (o0 :: rest).map Prod.fst, []⟩)
                      K' = some A' := hKA'
                  rw [fmFind_fmInsert] at hKA2
                  show aggInv (P ++ [(aggKey src orig, o0 :: rest)])
                    (s.poll_msg_keys ++ newEntries src orig (o0 :: rest)
                      (o0 :: rest) s.nextId) K' A'
                  by_cases hK' : aggKey src orig = K'
                  · rw [if_pos hK'] at hKA2
                    injection hKA2 with hKA2
                    subst hKA2
                    subst hK'
                    refine ⟨o0 :: rest, ?_, hnd, ?_, ?_, ?_⟩
                    · rw [fmFind_append_right _ (fmFind_eq_none.2 hKfresh)]
                      exact fmFind_of_mem_nodup (by simp)
                        (List.mem_singleton.2 rfl)
                    · show (initMessages (o0 :: rest)).map Prod.fst
                        = (o0 :: rest).map Prod.fst
                      rw [initMessages_eq hnd, List.map_map]
                      rfl
                    · intro e he hagg
                      have he2 : e ∈ s.poll_msg_keys ++ newEntries src orig
                          (o0 :: rest) (o0 :: rest) s.nextId := he
                      rcases List.mem_append.1 he2 with he3 | he3
                      · exact absurd (hagg ▸ hC e he3) hKfresh
                      · obtain ⟨hagg2, hreq2, poff, hpo, hle⟩ :=
                          newEntries_mem he3
                        exact ⟨hreq2, poff, fmFind_of_mem_nodup hnd hpo, hle⟩
                    · intro k ms hms
                      have hms2 : fmFind (initMessages (o0 :: rest)) k
                          = some ms := hms
                      rw [initMessages_eq hnd, fmFind_map_const] at hms2
                      cases hoff : fmFind (o0 :: rest) k with
                      | none =>
                          rw [hoff] at hms2
                          cases hms2
                      | some off =>
                          rw [hoff] at hms2
                          have hms3 : some ([] : List (Nat × Nat)) = some ms :=
                            hms2
                          injection hms3 with hms3
                          subst hms3
                          refine ⟨?_, off, rfl, ?_⟩
                          · show List.length ([] : List (Nat × Nat)) +
                              countE (s.poll_msg_keys ++ newEntries src orig
                                (o0 :: rest) (o0 :: rest) s.nextId)
                                (aggKey src orig) k ≤ NUM_POLLED_MESSAGES
                            rw [countE_append, hz]
                            simpa using newEntries_countE_le (aggKey src orig)
                              k hnd
                          · intro p hp
                            cases hp
                  · rw [if_neg hK'] at hKA2
                    refine aggInv_mono (hD K' A' hKA2)
                      (fun R' hR' => fmFind_append_left _ hR') ?_ ?_
                    · intro e he hagg
                      have he2 : e ∈ s.poll_msg_keys ++ newEntries src orig
                          (o0 :: rest) (o0 :: rest) s.nextId := he
                      rcases List.mem_append.1 he2 with he3 | he3
                      · exact he3
                      · exact absurd ((newEntries_mem he3).1.symm.trans hagg)
                          hK'
                    · intro k
                      have hcc : countE (s.poll_msg_keys ++ newEntries src orig
                            (o0 :: rest) (o0 :: rest) s.nextId) K' k
                          = countE s.poll_msg_keys K' k := by
                        rw [countE_append,
                          newEntries_countE_ne (fun he => hK' he.symm),
                          Nat.add_zero]
                      exact le_of_eq hcc

/-- The invariant holds initially: no polls seen, no poll state. -/
theorem Inv_empty (n : Nat) : Inv [] (KafkaLog.empty n) := by
  refine ⟨?_, ?_, ?_, ?_, ?_⟩ <;> simp [KafkaLog.empty, fmFind]

/-- Run-level soundness: over a trace whose polls are fresh w.r.t. `P` and
well formed, every output of the event loop is anchored in the polls seen. -/
theorem runKafka_anchored :
    ∀ (trace : List KMsg) (P : List (String × List (String × Nat)))
      (s : KafkaLog), Inv P s → ((pollsOf trace).map Prod.fst).Nodup →
      (∀ x ∈ pollsOf trace, x.1 ∉ P.map Prod.fst) →
      (∀ m ∈ trace, ∀ offs, m.payload = .Poll offs → (offs.map Prod.fst).Nodup) →
      ∀ o ∈ (runKafka s trace).2, PollOkAnchored (P ++ pollsOf trace) o := by
  intro trace
  induction trace with
  | nil =>
      intro P s _ _ _ _ o ho
      simp [runKafka] at ho
  | cons m rest ih =>
      intro P s hInv hnd hfresh hpolls o ho
      have hstep := handle_step P s m hInv
        (fun x hx => hfresh x
          (by rw [pollsOf_cons]; exact List.mem_append_left _ hx))
        (fun offs hoffs => hpolls m (List.mem_cons_self m rest) offs hoffs)
      rw [pollsOf_cons, ← List.append_assoc]
      cases hr : (handle s m).2 with
      | error e =>
          simp only [runKafka, hr] at ho
          exact anchored_mono (hstep.1 o ho)
      | ok s₂ =>
          simp only [runKafka, hr] at ho
          rcases List.mem_append.1 ho with ho2 | ho2
          · exact anchored_mono (hstep.1 o ho2)
          · have hnd2 : ((pollsOf rest).map Prod.fst).Nodup := by
              rw [pollsOf_cons, List.map_append] at hnd
              exact (List.nodup_append.1 hnd).2.1
            have hfresh2 : ∀ x ∈ pollsOf rest,
                x.1 ∉ (P ++ pollsOf [m]).map Prod.fst := by
              intro x hx
              rw [List.map_append, List.mem_append]
              rintro (hxa | hxb)
              · exact hfresh x
                  (by rw [pollsOf_cons]; exact List.mem_append_right _ hx) hxa
              · rw [pollsOf_cons, List.map_append] at hnd
                exact (List.nodup_append.1 hnd).2.2 hxb
                  (List.mem_map_of_mem Prod.fst hx)
            have hpolls2 : ∀ m2 ∈ rest, ∀ offs, m2.payload = .Poll offs →
                (offs.map Prod.fst).Nodup :=
              fun m2 hm2 => hpolls m2 (List.mem_cons_of_mem m hm2)
            exact ih (P ++ pollsOf [m]) s₂ (hstep.2 s₂ hr) hnd2 hfresh2
              hpolls2 o ho2

end Kafka

/-- **C6.** For every `poll_ok` reply the kafka handler sends over a
well-formed trace, and every key `k` listed in it: the returned list for `k`
holds at most `NUM_POLLED_MESSAGES = 3` entries, and every returned
`(offset, msg)` pair has `offset` at least the offset requested for `k` in
the originating `poll`, a requested offset of `0` being coerced to `1`. -/
theorem C6_poll_window (trace : List Kafka.KMsg) (hwf : Kafka.TraceWF trace)
    (o : Kafka.OutMsg)
    (ho : o ∈ (Kafka.runKafka (Kafka.KafkaLog.empty 2) trace).2)
    (msgs : List (String × List (Nat × Nat)))
    (hp : o.payload = .client (.PollOk msgs))
    (i : Nat) (hi : o.in_reply_to = some i)
    (q : Kafka.KMsg) (hq : q ∈ trace) (hqsrc : q.src = o.dst)
    (hqid : q.body_id = some i)
    (offs : List (String × Nat)) (hqp : q.payload = .Poll offs)
    (k : String) (ms : List (Nat × Nat)) (hk : (k, ms) ∈ msgs) :
    ms.length ≤ Kafka.NUM_POLLED_MESSAGES ∧
    ∀ p ∈ ms, ∀ roff, (k, roff) ∈ offs → Kafka.coerceOff roff ≤ p.1 := by
  have hanch := Kafka.runKafka_anchored trace [] (Kafka.KafkaLog.empty 2)
    (Kafka.Inv_empty 2) hwf.1 (by intro x hx h; simp at h) hwf.2 o ho
  rw [List.nil_append] at hanch
  obtain ⟨R, hR, hwin⟩ := hanch msgs hp i hi
  have hmem : (Kafka.aggKey q.src i, offs) ∈ Kafka.pollsOf trace :=
    Kafka.pollsOf_mem hq hqp hqid
  have hfind : fmFind (Kafka.pollsOf trace) (Kafka.aggKey q.src i)
      = some offs := fmFind_of_mem_nodup hwf.1 hmem
  rw [hqsrc] at hfind
  rw [hfind] at hR
  injection hR with hR
  subst hR
  obtain ⟨h1, h2⟩ := hwin k ms hk
  refine ⟨h1, ?_⟩
  intro p hp2 roff hroff
  have hndoffs : (offs.map Prod.fst).Nodup := hwf.2 q hq offs hqp
  exact h2 p hp2 roff (fmFind_of_mem_nodup hndoffs hroff)

/-- Concrete run exercising `C6_poll_window`: a `poll` for key `"k"` from
offset `2`, one successful entry read and one key-does-not-exist error,
producing the reply `poll_ok {"k": [(2, 100)]}`. -/
theorem C6_poll_window_witness :
    ([((2 : Nat), (100 : Nat))] : List (Nat × Nat)).length
      ≤ Kafka.NUM_POLLED_MESSAGES ∧
    ∀ p ∈ [((2 : Nat), (100 : Nat))], ∀ roff,
      ((("k" : String), roff) : String × Nat)
        ∈ [((("k" : String), (2 : Nat)))] →
      Kafka.coerceOff roff ≤ p.1 :=
  C6_poll_window
    [⟨"c1", some 5, none, .Poll [("k", 2)]⟩,
     ⟨"lin-kv", none, some 2, .ReadOk 100⟩,
     ⟨"lin-kv", none, some 3, .Error 20 "key does not exist"⟩]
    ⟨by decide, by
      intro m hm offs hoffs
      simp only [List.mem_cons, List.mem_singleton, List.not_mem_nil,
        or_false] at hm
      rcases hm with rfl | rfl | rfl
      · injection hoffs with h
        subst h
        decide
      · exact Kafka.Payload.noConfusion hoffs
      · exact Kafka.Payload.noConfusion hoffs⟩
    ⟨"c1", 5, some 5, .client (.PollOk [("k", [(2, 100)])])⟩
    (by decide)
    [("k", [(2, 100)])] rfl 5 rfl
    ⟨"c1", some 5, none, .Poll [("k", 2)]⟩ (by decide) rfl rfl
    [("k", 2)] rfl "k" [(2, 100)] (by decide)

end Gossipy
